import Mathlib

/-!
Verification of the Rating & Prediction Engine of the Football-Predictor
repository against its natural-language specification.

The Python sources are shallowly embedded: float arithmetic is modelled by
real arithmetic (`ℝ`), Python dicts by insertion-ordered association lists,
and loops by folds / `Finset` sums.  Definitions mirror
`src/plpred/predict.py`, `src/plpred/elo.py`, `src/plpred/ratings.py`,
`src/scripts/model.py` and the blending step of `src/scripts/core_generate.py`.
-/

open Finset

/-! ### Shared helpers for the truncated exponential series

`expPoly n x = ∑_{j<n} x^j / j!` is the degree-`(n-1)` Taylor polynomial of
`exp`, and `poisCdf n x = exp (-x) * expPoly n x = P(Poisson(x) ≤ n-1)` is the
total mass a Poisson pmf truncated at `n-1` retains.  Both `outcome_probs`
(predict.py) and the analytic facts below are phrased through them. -/

noncomputable def expPoly (n : ℕ) (x : ℝ) : ℝ :=
  ∑ j ∈ Finset.range n, x ^ j / (Nat.factorial j)

noncomputable def poisCdf (n : ℕ) (x : ℝ) : ℝ :=
  Real.exp (-x) * expPoly n x

/-- `_pois` from `src/plpred/predict.py`: Poisson pmf value
`exp(-lam) * lam^k / k!` with the rate clamped below at `1e-9`
(`lam = max(float(lam), 1e-9)`). -/
noncomputable def Pred.pois (k : ℕ) (lam : ℝ) : ℝ :=
  Real.exp (-(max lam 1e-9)) * (max lam 1e-9) ^ k / (Nat.factorial k)

/-- Home-win accumulator of `outcome_probs` (`src/plpred/predict.py`): the two
nested loops over `0..max_g` with `max_g = 12` add `pi * pj` to `ph` when
`i > j`. -/
noncomputable def Pred.phRaw (lam_home lam_away : ℝ) : ℝ :=
  ∑ i ∈ Finset.range 13, ∑ j ∈ Finset.range 13,
    if j < i then Pred.pois i lam_home * Pred.pois j lam_away else 0

/-- Draw accumulator of `outcome_probs`: cells with `i == j`. -/
noncomputable def Pred.pdRaw (lam_home lam_away : ℝ) : ℝ :=
  ∑ i ∈ Finset.range 13, ∑ j ∈ Finset.range 13,
    if i = j then Pred.pois i lam_home * Pred.pois j lam_away else 0

/-- Away-win accumulator of `outcome_probs`: cells with `i < j`. -/
noncomputable def Pred.paRaw (lam_home lam_away : ℝ) : ℝ :=
  ∑ i ∈ Finset.range 13, ∑ j ∈ Finset.range 13,
    if i < j then Pred.pois i lam_home * Pred.pois j lam_away else 0

/-- `outcome_probs` from `src/plpred/predict.py`: independent-Poisson 1X2
probabilities over a `13 × 13` goal grid; when `draw_scale != 1.0` the draw
mass is rescaled and the triple renormalised provided the rescaled total is
positive. -/
noncomputable def Pred.outcome_probs (lam_home lam_away draw_scale : ℝ) : ℝ × ℝ × ℝ :=
  let ph := Pred.phRaw lam_home lam_away
  let pd := Pred.pdRaw lam_home lam_away
  let pa := Pred.paRaw lam_home lam_away
  if draw_scale ≠ 1 then
    let pd2 := pd * draw_scale
    let s := ph + pd2 + pa
    if 0 < s then (ph / s, pd2 / s, pa / s) else (ph, pd2, pa)
  else
    (ph, pd, pa)

/-- Sum of the three components of a 1X2 probability triple. -/
def sum3 (p : ℝ × ℝ × ℝ) : ℝ := p.1 + p.2.1 + p.2.2

/-- All three components of a 1X2 triple lie in `[0, 1]`. -/
def inUnit3 (p : ℝ × ℝ × ℝ) : Prop :=
  (0 ≤ p.1 ∧ p.1 ≤ 1) ∧ (0 ≤ p.2.1 ∧ p.2.1 ≤ 1) ∧ (0 ≤ p.2.2 ∧ p.2.2 ≤ 1)

/-- `elo_match_probs` from `src/plpred/elo.py`: closed-form 1X2 distribution
from two Elo ratings, `r = 10 ** (delta / max(scale, 1e-6))`,
`denom = r + 1 + draw_nu * sqrt r`, with a uniform fallback when
`denom <= 0` or the component total is `<= 0`. -/
noncomputable def EloM.elo_match_probs (elo_h elo_a home_adv_points scale draw_nu : ℝ) :
    ℝ × ℝ × ℝ :=
  let delta := (elo_h + home_adv_points) - elo_a
  let r := (10 : ℝ) ^ (delta / max scale 1e-6)
  let r_sqrt := Real.sqrt r
  let denom := r + 1 + draw_nu * r_sqrt
  if denom ≤ 0 then (1/3, 1/3, 1/3)
  else
    let pH := r / denom
    let pD := (draw_nu * r_sqrt) / denom
    let pA := 1 / denom
    let s := pH + pD + pA
    if s ≤ 0 then (1/3, 1/3, 1/3) else (pH / s, pD / s, pA / s)

/-- The blending step of `main` in `src/scripts/core_generate.py`:
`w = min(max(blend_elo, 0), 1)`, per-outcome linear interpolation of the
Poisson and Elo triples, then renormalisation with a uniform fallback when
the total is `<= 0`. -/
noncomputable def Gen.blend (pP pE : ℝ × ℝ × ℝ) (blend_elo : ℝ) : ℝ × ℝ × ℝ :=
  let w := min (max blend_elo 0) 1
  let pH := (1 - w) * pP.1 + w * pE.1
  let pD := (1 - w) * pP.2.1 + w * pE.2.1
  let pA := (1 - w) * pP.2.2 + w * pE.2.2
  let s := pH + pD + pA
  if s ≤ 0 then (1/3, 1/3, 1/3) else (pH / s, pD / s, pA / s)

/-- All three components of a 1X2 triple are nonnegative. -/
def nonneg3 (p : ℝ × ℝ × ℝ) : Prop := 0 ≤ p.1 ∧ 0 ≤ p.2.1 ∧ 0 ≤ p.2.2

/-- Constructor parameters of class `PoissonDC` (`src/scripts/model.py`),
with the constructor's default values. -/
structure ModelM.PoissonDC where
  base_home : ℝ := 1.55
  base_away : ℝ := 1.25
  k : ℝ := 0.25
  rho : ℝ := -0.10
  max_goals : ℕ := 10
  floor_rate : ℝ := 0.12

/-- The default-constructed `PoissonDC()`. -/
def ModelM.defaultParams : ModelM.PoissonDC := {}

/-- `PoissonDC.rates`: `(rating_home, rating_away) -> (lambda, mu)` through a
log-link, clamped below at `floor_rate`.  (`r_home or 0.0` in the source only
substitutes 0 for a missing rating; ratings are reals here.) -/
noncomputable def ModelM.rates (p : ModelM.PoissonDC) (r_home r_away : ℝ) : ℝ × ℝ :=
  let diff := r_home - r_away
  (max p.floor_rate (p.base_home * Real.exp (p.k * diff)),
   max p.floor_rate (p.base_away * Real.exp (-p.k * diff)))

/-- The unnormalised entries of `_poisson_vec` (`src/scripts/model.py`):
`np.exp(-rate) * rate**k / np.maximum(1, k!)`. -/
noncomputable def ModelM.poissonRaw (rate : ℝ) (k : ℕ) : ℝ :=
  Real.exp (-rate) * rate ^ k / max 1 ((Nat.factorial k : ℝ))

/-- `_poisson_vec` after its `pmf /= pmf.sum()` normalisation, as a function
of the index `k ∈ 0..max_goals`. -/
noncomputable def ModelM.poissonVec (rate : ℝ) (maxG : ℕ) (k : ℕ) : ℝ :=
  ModelM.poissonRaw rate k / ∑ i ∈ Finset.range (maxG + 1), ModelM.poissonRaw rate i

/-- The plain independent-Poisson grid `M = np.outer(ph, pa)` built by
`PoissonDC.build_grid`. -/
noncomputable def ModelM.gridRaw (p : ModelM.PoissonDC) (r_home r_away : ℝ) (i j : ℕ) : ℝ :=
  ModelM.poissonVec (ModelM.rates p r_home r_away).1 p.max_goals i *
    ModelM.poissonVec (ModelM.rates p r_home r_away).2 p.max_goals j

/-- `f_adj` inside `PoissonDC.build_grid`: the Dixon-Coles multiplier of each
low-score cell. -/
def ModelM.f_adj (lam mu rho : ℝ) (i j : ℕ) : ℝ :=
  if i = 0 ∧ j = 0 then 1 - lam * mu * rho
  else if i = 0 ∧ j = 1 then 1 + lam * rho
  else if i = 1 ∧ j = 0 then 1 + mu * rho
  else if i = 1 ∧ j = 1 then 1 - rho
  else 1

/-- The grid after `build_grid`'s loop
`M[i,j] *= max(0.0, f_adj(i,j))` over `(0,0), (0,1), (1,0), (1,1)`, guarded
by `i <= max_goals and j <= max_goals`. -/
noncomputable def ModelM.gridAdj (p : ModelM.PoissonDC) (r_home r_away : ℝ) (i j : ℕ) : ℝ :=
  if ((i = 0 ∨ i = 1) ∧ (j = 0 ∨ j = 1)) ∧ i ≤ p.max_goals ∧ j ≤ p.max_goals then
    ModelM.gridRaw p r_home r_away i j *
      max 0 (ModelM.f_adj (ModelM.rates p r_home r_away).1
        (ModelM.rates p r_home r_away).2 p.rho i j)
  else ModelM.gridRaw p r_home r_away i j

/-- Total mass of a grid over the cells `0..maxG × 0..maxG` (`M.sum()`). -/
noncomputable def ModelM.gridSum (g : ℕ → ℕ → ℝ) (maxG : ℕ) : ℝ :=
  ∑ i ∈ Finset.range (maxG + 1), ∑ j ∈ Finset.range (maxG + 1), g i j

/-- The final grid of `PoissonDC.build_grid`: the adjusted grid divided by its
total; if that total is `<= 0` the code falls back to renormalising the raw
outer product instead (`if M_sum <= 0: M = np.outer(ph, pa); ...; M /= M_sum`). -/
noncomputable def ModelM.buildGrid (p : ModelM.PoissonDC) (r_home r_away : ℝ) (i j : ℕ) : ℝ :=
  if ModelM.gridSum (ModelM.gridAdj p r_home r_away) p.max_goals ≤ 0 then
    ModelM.gridRaw p r_home r_away i j /
      ModelM.gridSum (ModelM.gridRaw p r_home r_away) p.max_goals
  else
    ModelM.gridAdj p r_home r_away i j /
      ModelM.gridSum (ModelM.gridAdj p r_home r_away) p.max_goals


/-- Python-dict lookup with a default (`d.get(k, default)`), over an
insertion-ordered association list. -/
def getD {A : Type} : List (String × A) → String → A → A
  | [], _, d => d
  | (k1, v) :: t, k, d => if k1 = k then v else getD t k d

/-- Python-dict write `d[k] = v`: replace the value in place if the key is
present (a Python dict keeps the key's original position), else append. -/
def upsert {A : Type} : List (String × A) → String → A → List (String × A)
  | [], k, v => [(k, v)]
  | (k1, v1) :: t, k, v => if k1 = k then (k, v) :: t else (k1, v1) :: upsert t k v

/-- Keys of an association list, in insertion order. -/
def keysOf {A : Type} (l : List (String × A)) : List String := l.map Prod.fst

/-- Sum of the values of a real-valued association list. -/
def sumVal (l : List (String × ℝ)) : ℝ := (l.map Prod.snd).sum

/-- A finished-match row as consumed by `build_elo` (`src/plpred/elo.py`);
`utc_date` is modelled as an integer timestamp in seconds. -/
structure EloM.MatchRow where
  date : ℤ
  home : String
  away : String
  home_goals : ℕ
  away_goals : ℕ

/-- `_half_life_weight` from `src/plpred/elo.py`. -/
noncomputable def EloM.half_life_weight (age_days half_life_days : ℝ) : ℝ :=
  if half_life_days ≤ 0 then 1 else (0.5 : ℝ) ^ (age_days / half_life_days)

/-- `_expected_Elo` from `src/plpred/elo.py`. -/
noncomputable def EloM.expected_Elo (delta_points scale : ℝ) : ℝ :=
  1 / (1 + (10 : ℝ) ^ (-delta_points / scale))

/-- `_goal_diff_factor` from `src/plpred/elo.py` (the goal difference is
already an absolute value here, hence a natural number). -/
noncomputable def EloM.goal_diff_factor (gd : ℕ) (delta_abs : ℝ) : ℝ :=
  (if gd ≤ 1 then 1 else if gd = 2 then 1.5 else (11 + (gd : ℝ)) / 8) *
    (2.2 / (0.001 * delta_abs + 2.2))

/-- The mutable state of `build_elo`'s replay loop: the `ratings` and
`games_count` dicts. -/
structure EloM.State where
  ratings : List (String × ℝ)
  games : List (String × ℕ)

/-- One iteration of the replay loop of `build_elo`: read both ratings,
compute `change = K * G * (Sh - Eh)`, then `ratings[h] = Rh + change`,
`ratings[a] = Ra - change`, and bump both game counts (the away-side reads
happen after the home-side writes, as in the source). -/
noncomputable def EloM.step (now : ℤ) (k_base scale half_life_days home_adv_points init : ℝ)
    (st : EloM.State) (m : EloM.MatchRow) : EloM.State :=
  let age_days : ℝ := ((now - m.date : ℤ) : ℝ) / 86400
  let w_time := EloM.half_life_weight age_days half_life_days
  let Rh := getD st.ratings m.home init
  let Ra := getD st.ratings m.away init
  let delta := (Rh + home_adv_points) - Ra
  let Eh := EloM.expected_Elo delta scale
  let Sh : ℝ :=
    if m.away_goals < m.home_goals then 1
    else if m.home_goals = m.away_goals then 0.5 else 0
  let gd := ((m.home_goals : ℤ) - (m.away_goals : ℤ)).natAbs
  let g := EloM.goal_diff_factor gd |delta|
  let K := k_base * w_time
  let change := K * g * (Sh - Eh)
  let games1 := upsert st.games m.home (getD st.games m.home 0 + 1)
  { ratings := upsert (upsert st.ratings m.home (Rh + change)) m.away (Ra - change),
    games := upsert games1 m.away (getD games1 m.away 0 + 1) }

/-- The record returned by `build_elo`; the source's `teams` dict pairs each
team's final rating with its games count, kept here as the two association
lists `teams` (ratings) and `games`. -/
structure EloM.Result where
  init : ℝ
  scale : ℝ
  k_base : ℝ
  home_adv_points : ℝ
  draw_nu : ℝ
  teams : List (String × ℝ)
  games : List (String × ℕ)

/-- `build_elo` from `src/plpred/elo.py`: empty input returns the defaults
with `draw_nu = 1`; otherwise sort by kickoff date (a stable ascending sort),
fit `draw_nu` from the draw rate clamped into `[0.15, 0.35]` via
`nu = 2r / max(1 - r, 1e-6)`, and replay the matches from the empty ratings
dict. -/
noncomputable def EloM.build_elo (now : ℤ) (df : List EloM.MatchRow)
    (init k_base scale half_life_days home_adv_points : ℝ) : EloM.Result :=
  if df.isEmpty then
    { init := init, scale := scale, k_base := k_base,
      home_adv_points := home_adv_points, draw_nu := 1, teams := [], games := [] }
  else
    let sorted := List.insertionSort (fun a b : EloM.MatchRow => a.date ≤ b.date) df
    let draws := (sorted.filter (fun m => m.home_goals = m.away_goals)).length
    let draw_rate0 : ℝ := (draws : ℝ) / ((max sorted.length 1 : ℕ) : ℝ)
    let draw_rate := min (max draw_rate0 0.15) 0.35
    let draw_nu := (2 * draw_rate) / max (1 - draw_rate) 1e-6
    let final := sorted.foldl
      (EloM.step now k_base scale half_life_days home_adv_points init)
      { ratings := [], games := [] }
    { init := init, scale := scale, k_base := k_base,
      home_adv_points := home_adv_points, draw_nu := draw_nu,
      teams := final.ratings, games := final.games }


/-- An entry of `top_scorelines` (`src/plpred/predict.py`): home goals, away
goals, and the sort key.  The source sorts by the probability
`_pois(i, lam) * _pois(j, mu)`; that probability equals
`exp(-(lam' + mu')) * key` where `key = lam'^i * mu'^j / (i! * j!)` is
rational (float inputs are rationals) and the exponential factor is a
positive constant, so comparing keys is the same as comparing probabilities
(`Pred.prob_le_iff_key_le` below). -/
structure Pred.Scoreline where
  home_goals : ℕ
  away_goals : ℕ
  key : ℚ
deriving DecidableEq

/-- The rational part of `_pois(i, lam) * _pois(j, mu)` after removing the
positive constant `exp(-(lam' + mu'))`; `lam' = max lam 1e-9` as in `_pois`. -/
def Pred.keyQ (lam mu : ℚ) (i j : ℕ) : ℚ :=
  (max lam 1e-9) ^ i * (max mu 1e-9) ^ j /
    ((Nat.factorial i : ℚ) * (Nat.factorial j : ℚ))

/-- The item list of `top_scorelines` before sorting: `i` ascending then `j`
ascending over `0..cap`, exactly the loop order of the source. -/
def Pred.scorelineItems (lam mu : ℚ) (cap : ℕ) : List Pred.Scoreline :=
  (List.range (cap + 1)).flatMap fun i =>
    (List.range (cap + 1)).map fun j => ⟨i, j, Pred.keyQ lam mu i j⟩

/-- Comparator of `out.sort(key=lambda r: r["prob"], reverse=True)`:
descending by the probability key. -/
def Pred.keyGe (a b : Pred.Scoreline) : Prop := b.key ≤ a.key

instance : DecidableRel Pred.keyGe :=
  fun a b => inferInstanceAs (Decidable (b.key ≤ a.key))

instance : IsTotal Pred.Scoreline Pred.keyGe := ⟨fun a b => le_total b.key a.key⟩

instance : IsTrans Pred.Scoreline Pred.keyGe :=
  ⟨fun _ _ _ hab hbc => le_trans hbc hab⟩

/-- `top_scorelines` from `src/plpred/predict.py`: enumerate every scoreline
of `0..cap × 0..cap`, sort by descending probability (Python's `list.sort` is
a stable sort), and keep the first `k`. -/
def Pred.top_scorelines (lam mu : ℚ) (k cap : ℕ) : List Pred.Scoreline :=
  ((Pred.scorelineItems lam mu cap).insertionSort Pred.keyGe).take k

/-- Strict lexicographic order on `(home_goals, away_goals)` — the generation
order of `scorelineItems`. -/
def Pred.lexLt (a b : Pred.Scoreline) : Prop :=
  a.home_goals < b.home_goals ∨
    (a.home_goals = b.home_goals ∧ a.away_goals < b.away_goals)

/-- The total order realised by the stable descending sort on items generated
in lexicographic order: descending key, with ties in ascending
`(home_goals, away_goals)` order. -/
def Pred.keyLex (a b : Pred.Scoreline) : Prop :=
  b.key < a.key ∨ (b.key = a.key ∧ (a.home_goals < b.home_goals ∨
    (a.home_goals = b.home_goals ∧ a.away_goals ≤ b.away_goals)))

instance : DecidableRel Pred.keyLex :=
  fun a b => inferInstanceAs (Decidable (_ ∨ _))

instance : IsTotal Pred.Scoreline Pred.keyLex :=
  ⟨fun a b => by
    rcases lt_trichotomy a.key b.key with h | h | h
    · exact Or.inr (Or.inl h)
    · by_cases h2 : a.home_goals < b.home_goals ∨
        (a.home_goals = b.home_goals ∧ a.away_goals ≤ b.away_goals)
      · exact Or.inl (Or.inr ⟨h.symm, h2⟩)
      · refine Or.inr (Or.inr ⟨h, ?_⟩)
        omega
    · exact Or.inl (Or.inl h)⟩

instance : IsTrans Pred.Scoreline Pred.keyLex :=
  ⟨fun a b c hab hbc => by
    rcases hab with h1 | ⟨h1, h2⟩ <;> rcases hbc with h3 | ⟨h3, h4⟩
    · exact Or.inl (h3.trans h1)
    · exact Or.inl (by rw [h3]; exact h1)
    · exact Or.inl (by rw [← h1]; exact h3)
    · exact Or.inr ⟨h3.trans h1, by omega⟩⟩

/-- An entry of `PoissonDC.top_scorelines` (`src/scripts/model.py`): the
tuple `(prob, i, j)` which the source sorts with `items.sort(reverse=True)`.
Grid cells are rationals (floats are rationals). -/
structure ModelM.Scoreline where
  prob : ℚ
  home_goals : ℕ
  away_goals : ℕ
deriving DecidableEq

/-- Descending lexicographic comparison of the tuples `(prob, i, j)`:
Python's `sort(reverse=True)` orders tuples this way (ties in `prob` are
broken by higher home goals, then higher away goals). -/
def ModelM.tupGe (a b : ModelM.Scoreline) : Prop :=
  b.prob < a.prob ∨ (b.prob = a.prob ∧ (b.home_goals < a.home_goals ∨
    (b.home_goals = a.home_goals ∧ b.away_goals ≤ a.away_goals)))

instance : DecidableRel ModelM.tupGe :=
  fun a b => inferInstanceAs (Decidable (_ ∨ _))

instance : IsTotal ModelM.Scoreline ModelM.tupGe :=
  ⟨fun a b => by
    rcases lt_trichotomy a.prob b.prob with h | h | h
    · exact Or.inr (Or.inl h)
    · by_cases h2 : b.home_goals < a.home_goals ∨
        (b.home_goals = a.home_goals ∧ b.away_goals ≤ a.away_goals)
      · exact Or.inl (Or.inr ⟨h.symm, h2⟩)
      · refine Or.inr (Or.inr ⟨h, ?_⟩)
        omega
    · exact Or.inl (Or.inl h)⟩

instance : IsTrans ModelM.Scoreline ModelM.tupGe :=
  ⟨fun a b c hab hbc => by
    rcases hab with h1 | ⟨h1, h2⟩ <;> rcases hbc with h3 | ⟨h3, h4⟩
    · exact Or.inl (h3.trans h1)
    · exact Or.inl (by rw [h3]; exact h1)
    · exact Or.inl (by rw [← h1]; exact h3)
    · exact Or.inr ⟨h3.trans h1, by omega⟩⟩

/-- The cell enumeration of `PoissonDC.top_scorelines`: row-major over the
grid (`for i in range(rows): for j in range(cols)`). -/
def ModelM.gridItems (M : List (List ℚ)) : List ModelM.Scoreline :=
  (List.range M.length).flatMap fun i =>
    (List.range ((M.getD i []).length)).map fun j => ⟨(M.getD i []).getD j 0, i, j⟩

/-- `PoissonDC.top_scorelines` from `src/scripts/model.py`: sort all cells as
tuples `(prob, i, j)` in reverse (descending lexicographic) order and keep
the first `k`. -/
def ModelM.top_scorelines (M : List (List ℚ)) (k : ℕ) : List ModelM.Scoreline :=
  ((ModelM.gridItems M).insertionSort ModelM.tupGe).take k

/-- Strict lexicographic order on the `(i, j)` cells — the generation order
of `gridItems`. -/
def ModelM.cellLt (a b : ModelM.Scoreline) : Prop :=
  a.home_goals < b.home_goals ∨
    (a.home_goals = b.home_goals ∧ a.away_goals < b.away_goals)

/-- Modelled from the spec: the ordering claim C5 asserts for top-scoreline
lists — descending probability, ties broken by lower total goals, then lower
home goals. -/
def ModelM.specClaimOrder (a b : ModelM.Scoreline) : Prop :=
  b.prob < a.prob ∨ (b.prob = a.prob ∧
    (a.home_goals + a.away_goals < b.home_goals + b.away_goals ∨
      (a.home_goals + a.away_goals = b.home_goals + b.away_goals ∧
        a.home_goals ≤ b.home_goals)))

instance : DecidableRel ModelM.specClaimOrder :=
  fun a b => inferInstanceAs (Decidable (_ ∨ _))


/-- The ratings record returned by `build_ratings` (`src/plpred/ratings.py`):
the league parameters and the per-team strengths table (each team a
string-keyed record of floats). -/
structure RatM.Ratings where
  league_avg_gpg : ℝ
  home_adv : ℝ
  draw_scale : ℝ
  teams : List (String × List (String × ℝ))

/-- `build_ratings` from `src/plpred/ratings.py`, split at its first branch:
`if df.empty:` returns the neutral defaults
`{"league_avg_gpg": 1.35, "home_adv": 1.10, "draw_scale": 1.00, "teams": {}}`.
The non-empty branch — a weighted aggregation pipeline none of the claims
about this function depend on — is abstracted as the `nonempty_branch`
argument. -/
def RatM.build_ratings {Row : Type} (df : List Row)
    (nonempty_branch : List Row → RatM.Ratings) : RatM.Ratings :=
  if df.isEmpty then
    { league_avg_gpg := 1.35, home_adv := 1.10, draw_scale := 1.00, teams := [] }
  else nonempty_branch df

/-- A per-team record of the `teams` table produced by `build_ratings`
(the `out_teams` construction at the end of `src/plpred/ratings.py`): the
stored keys are exactly `att`, `def`, `att_home`, `def_home`, `att_away`,
`def_away`, `games`; the stored numbers (the clamped, rounded rates) are
taken as parameters. -/
def RatM.mkTeamRecord (att deff att_home def_home att_away def_away games : ℝ) :
    List (String × ℝ) :=
  [("att", att), ("def", deff), ("att_home", att_home), ("def_home", def_home),
   ("att_away", att_away), ("def_away", def_away), ("games", games)]

/-- The `Strengths` dataclass from `src/plpred/predict.py` (all factors
default to 1.0). -/
structure Pred.Strengths where
  att : ℝ := 1.0
  deff : ℝ := 1.0
  att_h : ℝ := 1.0
  deff_h : ℝ := 1.0
  att_a : ℝ := 1.0
  deff_a : ℝ := 1.0

/-- `_get_strengths` from `src/plpred/predict.py`: a missing key resolves to
the neutral `Strengths()`; otherwise each venue-split field reads the key
`att_h`/`def_h`/`att_a`/`def_a` with the overall `att`/`def` value as
fallback. -/
def Pred.get_strengths (key : Option String)
    (teams : List (String × List (String × ℝ))) : Pred.Strengths :=
  match key with
  | none => {}
  | some k =>
    let t := getD teams k []
    { att := getD t "att" 1.0,
      deff := getD t "def" 1.0,
      att_h := getD t "att_h" (getD t "att" 1.0),
      deff_h := getD t "def_h" (getD t "def" 1.0),
      att_a := getD t "att_a" (getD t "att" 1.0),
      deff_a := getD t "def_a" (getD t "def" 1.0) }

/-- Dict lookup returning an option (`k in d` plus `d[k]`). -/
def lookupA {A : Type} : List (String × A) → String → Option A
  | [], _ => none
  | (k1, v) :: t, k => if k1 = k then some v else lookupA t k

/-- `_build_canon_index` from `src/plpred/predict.py`: fold over the team
keys in insertion order, writing `idx[canon_team(k)] = k` (a later collision
keeps the first position but replaces the stored key, as a Python dict
does).  The regex-based canonicaliser `canon_team` is kept abstract as the
parameter `canon`; no claim depends on its internals. -/
def Pred.build_canon_index (canon : String → String) (teams : List String) :
    List (String × String) :=
  teams.foldl (fun idx k => upsert idx (canon k) k) []

/-- Python's `str.split()` on canonical names: split on spaces, dropping
empty fragments. -/
def Pred.tokens (s : String) : List String :=
  (s.splitOn " ").filter (fun t => t ≠ "")

/-- `len(tokens ∩ set(ck.split()))`: the token-set overlap of a canonical
index key with the query's token set. -/
def Pred.score (qtokens : List String) (ck : String) : ℕ :=
  ((Pred.tokens ck).dedup.filter (fun t => t ∈ qtokens)).length

/-- Modelled from the spec: "pick the rating-table entry maximizing token-set
intersection size with the query's canonical tokens (ties broken by
first-seen table order)" — the first-seen maximiser of `sc` over an index
list, with score `-1` for an empty list.  Compared below with the argmax
loop of `resolve_team_key`. -/
def Pred.specBest (sc : String → ℕ) : List (String × String) → Option String × ℤ
  | [] => (none, -1)
  | p :: t =>
    let r := Pred.specBest sc t
    if (sc p.1 : ℤ) < r.2 then r else (some p.2, (sc p.1 : ℤ))

/-- `resolve_team_key` from `src/plpred/predict.py`: empty table →
`(None, "no-teams-in-ratings")`; a direct canonical hit → `"direct"`;
otherwise the token-overlap loop (`if score > best_score: update`, starting
from `best_score = -1`) followed by `"token-match"` when the best score is
positive and `(None, "unmatched")` otherwise. -/
def Pred.resolve_team_key (canon : String → String) (name : String)
    (teams : List String) : Option String × String :=
  if teams.isEmpty then (none, "no-teams-in-ratings")
  else
    let cidx := Pred.build_canon_index canon teams
    let c := canon name
    match lookupA cidx c with
    | some orig => (some orig, "direct")
    | none =>
      let qtokens := Pred.tokens c
      let best := cidx.foldl (fun st p =>
        if st.2 < (Pred.score qtokens p.1 : ℤ)
        then (some p.2, (Pred.score qtokens p.1 : ℤ)) else st)
        ((none : Option String), (-1 : ℤ))
      if 0 < best.2 then (best.1, "token-match") else (none, "unmatched")

/-! ### Theorems -/

theorem expPoly_succ (n : ℕ) (x : ℝ) :
    expPoly (n + 1) x = expPoly n x + x ^ n / (Nat.factorial n) := by
  simp [expPoly, Finset.sum_range_succ]

theorem expPoly_zero_eval (n : ℕ) : expPoly (n + 1) 0 = 1 := by
  induction n with
  | zero => simp [expPoly]
  | succ m ih => rw [expPoly_succ, ih]; simp

theorem expPoly_pos {x : ℝ} (hx : 0 < x) (n : ℕ) : 0 < expPoly (n + 1) x := by
  have h : 0 < x ^ 0 / (Nat.factorial 0 : ℝ) := by norm_num
  refine Finset.sum_pos' (fun j _ => ?_) ⟨0, Finset.mem_range.2 (Nat.succ_pos n), h⟩
  positivity

theorem hasDerivAt_expPoly (n : ℕ) (x : ℝ) :
    HasDerivAt (expPoly (n + 1)) (expPoly n x) x := by
  have hterm : ∀ j ∈ Finset.range (n + 1),
      HasDerivAt (fun y : ℝ => y ^ j / (Nat.factorial j))
        ((j : ℝ) * x ^ (j - 1) / (Nat.factorial j)) x := by
    intro j _
    exact (hasDerivAt_pow j x).div_const _
  have hsum := HasDerivAt.sum hterm
  have hval : ∑ j ∈ Finset.range (n + 1), (j : ℝ) * x ^ (j - 1) / (Nat.factorial j)
      = expPoly n x := by
    rw [Finset.sum_range_succ']
    simp only [Nat.cast_zero, Nat.factorial_zero, Nat.cast_one, zero_mul, zero_div, add_zero]
    refine Finset.sum_congr rfl fun j _ => ?_
    have hfac : ((Nat.factorial (j + 1) : ℝ)) = (j + 1) * Nat.factorial j := by
      rw [Nat.factorial_succ]; push_cast; ring
    have hj1 : ((j : ℝ) + 1) ≠ 0 := by positivity
    have hfj : (Nat.factorial j : ℝ) ≠ 0 := by
      exact_mod_cast Nat.factorial_ne_zero j
    field_simp [hfac]
    ring
  have : HasDerivAt (fun y : ℝ => ∑ j ∈ Finset.range (n + 1), y ^ j / (Nat.factorial j))
      (expPoly n x) x := hval ▸ hsum
  exact this.congr_of_eventuallyEq (by filter_upwards with y; simp [expPoly])

theorem hasDerivAt_expNeg (x : ℝ) :
    HasDerivAt (fun y : ℝ => Real.exp (-y)) (-Real.exp (-x)) x := by
  have h := (Real.hasDerivAt_exp (-x)).comp x (hasDerivAt_neg x)
  simpa [Function.comp] using h

theorem hasDerivAt_poisCdf (n : ℕ) (x : ℝ) :
    HasDerivAt (poisCdf (n + 1)) (-(Real.exp (-x) * x ^ n / (Nat.factorial n))) x := by
  have h := (hasDerivAt_expNeg x).mul (hasDerivAt_expPoly n x)
  have hval : -Real.exp (-x) * expPoly (n + 1) x + Real.exp (-x) * expPoly n x
      = -(Real.exp (-x) * x ^ n / (Nat.factorial n)) := by
    rw [expPoly_succ]; ring
  have : HasDerivAt (fun y => Real.exp (-y) * expPoly (n + 1) y)
      (-(Real.exp (-x) * x ^ n / (Nat.factorial n))) x := hval ▸ h
  exact this.congr_of_eventuallyEq (by filter_upwards with y; simp [poisCdf])

theorem poisCdf_strictAntiOn (n : ℕ) :
    StrictAntiOn (poisCdf (n + 1)) (Set.Ici (0 : ℝ)) := by
  apply strictAntiOn_of_deriv_neg (convex_Ici 0)
  · intro x _
    exact (hasDerivAt_poisCdf n x).continuousAt.continuousWithinAt
  · intro x hx
    rw [interior_Ici, Set.mem_Ioi] at hx
    rw [(hasDerivAt_poisCdf n x).deriv]
    have : 0 < Real.exp (-x) * x ^ n / (Nat.factorial n) := by positivity
    linarith

theorem poisCdf_le_one {x : ℝ} (hx : 0 ≤ x) (n : ℕ) : poisCdf (n + 1) x ≤ 1 := by
  have h0 : poisCdf (n + 1) 0 = 1 := by
    simp [poisCdf, expPoly_zero_eval]
  rcases eq_or_lt_of_le hx with h | h
  · rw [← h, h0]
  · have := poisCdf_strictAntiOn n (Set.left_mem_Ici) (Set.mem_Ici.2 hx) h
    rw [h0] at this
    exact this.le

theorem poisCdf_pos {x : ℝ} (n : ℕ) : 0 < poisCdf (n + 1) x ∨ x ≤ 0 := by
  rcases le_or_lt x 0 with h | h
  · exact Or.inr h
  · exact Or.inl (mul_pos (Real.exp_pos _) (expPoly_pos h n))

/-- Numeric upper bound on `exp (7/2)`, obtained from `Real.exp_bound` at
`7/8` and `exp (7/2) = (exp (7/8))^4`. -/
theorem exp_seven_half_le : Real.exp ((7 : ℝ) / 2) ≤ 33.121 := by
  have hx : |(7 : ℝ) / 8| ≤ 1 := by rw [abs_of_pos] <;> norm_num
  have hb := Real.exp_bound hx (n := 7) (by norm_num)
  have hsum : ∑ m ∈ Finset.range 7, ((7 : ℝ) / 8) ^ m / (Nat.factorial m)
      = 90551213 / 37748736 := by
    simp [Finset.sum_range_succ, Nat.factorial]
    norm_num
  have habs : |(7 : ℝ) / 8| = 7 / 8 := by rw [abs_of_pos]; norm_num
  rw [hsum, habs] at hb
  have hle : Real.exp ((7 : ℝ) / 8) ≤ 2.39888 := by
    have h1 := (abs_sub_le_iff.1 hb).1
    norm_num [Nat.factorial] at h1
    linarith
  have h4 : Real.exp ((7 : ℝ) / 2) = (Real.exp ((7 : ℝ) / 8)) ^ 4 := by
    rw [← Real.exp_nat_mul]
    norm_num
  rw [h4]
  have hnn : (0 : ℝ) ≤ Real.exp ((7 : ℝ) / 8) := (Real.exp_pos _).le
  calc (Real.exp ((7 : ℝ) / 8)) ^ 4
      ≤ (2.39888 : ℝ) ^ 4 := by
        apply pow_le_pow_left₀ hnn hle
    _ ≤ 33.121 := by norm_num

/-- The Poisson mass retained up to 12 goals at rate `7/2` is at least `0.995`. -/
theorem poisCdf_thirteen_ge : (0.9974 : ℝ) ≤ poisCdf 13 (7 / 2) := by
  have hP : expPoly 13 ((7 : ℝ) / 2) = 1856207678483 / 56056872960 := by
    simp [expPoly, Finset.sum_range_succ, Nat.factorial]
    norm_num
  have hexp : Real.exp (-(7 / 2 : ℝ)) = 1 / Real.exp ((7 : ℝ) / 2) := by
    rw [Real.exp_neg]; ring
  have hpos : (0 : ℝ) < Real.exp ((7 : ℝ) / 2) := Real.exp_pos _
  have hge : (1 : ℝ) / Real.exp ((7 : ℝ) / 2) ≥ 1 / 33.121 := by
    apply one_div_le_one_div_of_le _ exp_seven_half_le
    positivity
  have : poisCdf 13 ((7 : ℝ) / 2) = (1 / Real.exp ((7 : ℝ) / 2)) * (1856207678483 / 56056872960) := by
    rw [poisCdf, hP, hexp]
  rw [this]
  have h2 : (1 / 33.121 : ℝ) * (1856207678483 / 56056872960) ≤
      (1 / Real.exp ((7 : ℝ) / 2)) * (1856207678483 / 56056872960) := by
    apply mul_le_mul_of_nonneg_right hge
    norm_num
  calc (0.9974 : ℝ) ≤ (1 / 33.121) * (1856207678483 / 56056872960) := by norm_num
    _ ≤ _ := h2

/-- Monotone comparison: for `0 ≤ a ≤ b`, `poisCdf (n+1) b ≤ poisCdf (n+1) a`. -/
theorem poisCdf_le_poisCdf {a b : ℝ} (ha : 0 ≤ a) (hab : a ≤ b) (n : ℕ) :
    poisCdf (n + 1) b ≤ poisCdf (n + 1) a := by
  rcases eq_or_lt_of_le hab with h | h
  · rw [h]
  · exact (poisCdf_strictAntiOn n (Set.mem_Ici.2 ha)
      (Set.mem_Ici.2 (ha.trans hab)) h).le

namespace Pred

theorem pois_pos (k : ℕ) (lam : ℝ) : 0 < pois k lam := by
  have h : (0 : ℝ) < max lam 1e-9 := lt_of_lt_of_le (by norm_num) (le_max_right _ _)
  rw [pois]
  positivity

theorem sum_pois (lam : ℝ) (n : ℕ) :
    ∑ k ∈ Finset.range n, pois k lam = poisCdf n (max lam 1e-9) := by
  simp [pois, poisCdf, expPoly, Finset.mul_sum, mul_div_assoc]

theorem phRaw_nonneg (lam mu : ℝ) : 0 ≤ phRaw lam mu := by
  refine Finset.sum_nonneg fun i _ => Finset.sum_nonneg fun j _ => ?_
  split
  · exact (mul_pos (pois_pos _ _) (pois_pos _ _)).le
  · exact le_refl _

theorem pdRaw_nonneg (lam mu : ℝ) : 0 ≤ pdRaw lam mu := by
  refine Finset.sum_nonneg fun i _ => Finset.sum_nonneg fun j _ => ?_
  split
  · exact (mul_pos (pois_pos _ _) (pois_pos _ _)).le
  · exact le_refl _

theorem paRaw_nonneg (lam mu : ℝ) : 0 ≤ paRaw lam mu := by
  refine Finset.sum_nonneg fun i _ => Finset.sum_nonneg fun j _ => ?_
  split
  · exact (mul_pos (pois_pos _ _) (pois_pos _ _)).le
  · exact le_refl _

theorem phRaw_pos (lam mu : ℝ) : 0 < phRaw lam mu := by
  refine Finset.sum_pos' (fun i _ => Finset.sum_nonneg fun j _ => ?_) ⟨1, ?_, ?_⟩
  · split
    · exact (mul_pos (pois_pos _ _) (pois_pos _ _)).le
    · exact le_refl _
  · exact Finset.mem_range.2 (by norm_num)
  · refine Finset.sum_pos' (fun j _ => ?_) ⟨0, Finset.mem_range.2 (by norm_num), ?_⟩
    · split
      · exact (mul_pos (pois_pos _ _) (pois_pos _ _)).le
      · exact le_refl _
    · simp only [Nat.zero_lt_one, if_pos]
      exact mul_pos (pois_pos _ _) (pois_pos _ _)

theorem paRaw_pos (lam mu : ℝ) : 0 < paRaw lam mu := by
  refine Finset.sum_pos' (fun i _ => Finset.sum_nonneg fun j _ => ?_) ⟨0, ?_, ?_⟩
  · split
    · exact (mul_pos (pois_pos _ _) (pois_pos _ _)).le
    · exact le_refl _
  · exact Finset.mem_range.2 (by norm_num)
  · refine Finset.sum_pos' (fun j _ => ?_) ⟨1, Finset.mem_range.2 (by norm_num), ?_⟩
    · split
      · exact (mul_pos (pois_pos _ _) (pois_pos _ _)).le
      · exact le_refl _
    · simp only [Nat.zero_lt_one, if_pos]
      exact mul_pos (pois_pos _ _) (pois_pos _ _)

theorem raw_total (lam mu : ℝ) :
    phRaw lam mu + pdRaw lam mu + paRaw lam mu
      = poisCdf 13 (max lam 1e-9) * poisCdf 13 (max mu 1e-9) := by
  rw [← sum_pois lam 13, ← sum_pois mu 13, Finset.sum_mul_sum]
  rw [phRaw, pdRaw, paRaw, ← Finset.sum_add_distrib, ← Finset.sum_add_distrib]
  refine Finset.sum_congr rfl fun i _ => ?_
  rw [← Finset.sum_add_distrib, ← Finset.sum_add_distrib]
  refine Finset.sum_congr rfl fun j _ => ?_
  rcases lt_trichotomy j i with h | h | h
  · rw [if_pos h, if_neg (by omega), if_neg (by omega)]; ring
  · rw [if_neg (by omega), if_pos (by omega), if_neg (by omega)]; ring
  · rw [if_neg (by omega), if_neg (by omega), if_pos h]; ring

theorem phRaw_eq (lam mu : ℝ) :
    phRaw lam mu = ∑ i ∈ Finset.range 13, pois i lam * poisCdf i (max mu 1e-9) := by
  rw [phRaw]
  refine Finset.sum_congr rfl fun i hi => ?_
  have hfil : Finset.filter (fun j => j < i) (Finset.range 13) = Finset.range i := by
    apply Finset.ext
    intro j
    simp only [Finset.mem_filter, Finset.mem_range]
    have := Finset.mem_range.1 hi
    omega
  rw [Finset.sum_ite, Finset.sum_const_zero, add_zero, hfil, ← sum_pois mu i, Finset.mul_sum]

theorem phRaw_strict_anti (lam : ℝ) {mu1 mu2 : ℝ} (h1 : 1e-9 ≤ mu1) (h12 : mu1 < mu2) :
    phRaw lam mu2 < phRaw lam mu1 := by
  have h0 : (0 : ℝ) < 1e-9 := by norm_num
  have hm1 : max mu1 1e-9 = mu1 := max_eq_left h1
  have hm2 : max mu2 1e-9 = mu2 := max_eq_left (h1.trans h12.le)
  rw [phRaw_eq, phRaw_eq, hm1, hm2]
  apply Finset.sum_lt_sum
  · intro i _
    cases i with
    | zero => simp [poisCdf, expPoly]
    | succ n =>
      exact mul_le_mul_of_nonneg_left
        (poisCdf_le_poisCdf (le_trans h0.le h1) h12.le n) (pois_pos _ _).le
  · refine ⟨1, Finset.mem_range.2 (by norm_num), ?_⟩
    apply mul_lt_mul_of_pos_left _ (pois_pos 1 lam)
    exact poisCdf_strictAntiOn 0 (Set.mem_Ici.2 (h0.le.trans h1))
      (Set.mem_Ici.2 ((h0.le.trans h1).trans h12.le)) h12

end Pred

/-- Normalising three nonnegative reals with positive total yields a
probability triple summing to exactly 1. -/
theorem unit3_of_normalise (a b c : ℝ) (ha : 0 ≤ a) (hb : 0 ≤ b) (hc : 0 ≤ c)
    (hs : 0 < a + b + c) :
    inUnit3 (a / (a + b + c), b / (a + b + c), c / (a + b + c)) ∧
      sum3 (a / (a + b + c), b / (a + b + c), c / (a + b + c)) = 1 := by
  refine ⟨⟨⟨div_nonneg ha hs.le, ?_⟩, ⟨div_nonneg hb hs.le, ?_⟩,
    ⟨div_nonneg hc hs.le, ?_⟩⟩, ?_⟩
  · exact div_le_one_of_le₀ (by linarith) hs.le
  · exact div_le_one_of_le₀ (by linarith) hs.le
  · exact div_le_one_of_le₀ (by linarith) hs.le
  · show a / (a + b + c) + b / (a + b + c) + c / (a + b + c) = 1
    field_simp

namespace Pred

theorem outcome_probs_one (lam mu : ℝ) :
    outcome_probs lam mu 1 = (phRaw lam mu, pdRaw lam mu, paRaw lam mu) := by
  simp [outcome_probs]

theorem outcome_probs_unit (lam mu ds : ℝ) (hl : 0 < lam) (hl2 : lam ≤ 3.5)
    (hm : 0 < mu) (hm2 : mu ≤ 3.5) (hds : 0 ≤ ds) :
    inUnit3 (outcome_probs lam mu ds) ∧ |sum3 (outcome_probs lam mu ds) - 1| ≤ 0.01 := by
  have hph := phRaw_nonneg lam mu
  have hpd := pdRaw_nonneg lam mu
  have hpa := paRaw_nonneg lam mu
  have hphp := phRaw_pos lam mu
  by_cases h : ds = 1
  · subst h
    rw [outcome_probs_one]
    have htot := raw_total lam mu
    have hL0 : (0 : ℝ) ≤ max lam 1e-9 := le_trans (by norm_num) (le_max_right _ _)
    have hM0 : (0 : ℝ) ≤ max mu 1e-9 := le_trans (by norm_num) (le_max_right _ _)
    have hL35 : max lam 1e-9 ≤ 7 / 2 := max_le (by linarith) (by norm_num)
    have hM35 : max mu 1e-9 ≤ 7 / 2 := max_le (by linarith) (by norm_num)
    have hL1 : poisCdf 13 (max lam 1e-9) ≤ 1 := poisCdf_le_one hL0 12
    have hM1 : poisCdf 13 (max mu 1e-9) ≤ 1 := poisCdf_le_one hM0 12
    have hLlo : (0.9974 : ℝ) ≤ poisCdf 13 (max lam 1e-9) :=
      le_trans poisCdf_thirteen_ge (poisCdf_le_poisCdf hL0 hL35 12)
    have hMlo : (0.9974 : ℝ) ≤ poisCdf 13 (max mu 1e-9) :=
      le_trans poisCdf_thirteen_ge (poisCdf_le_poisCdf hM0 hM35 12)
    have hTle : phRaw lam mu + pdRaw lam mu + paRaw lam mu ≤ 1 := by
      rw [htot]
      exact mul_le_one₀ hL1 (by linarith) hM1
    have hTge : (0.99 : ℝ) ≤ phRaw lam mu + pdRaw lam mu + paRaw lam mu := by
      rw [htot]
      nlinarith
    constructor
    · exact ⟨⟨hph, by linarith⟩, ⟨hpd, by linarith⟩, ⟨hpa, by linarith⟩⟩
    · rw [sum3, abs_le]
      constructor <;> [linarith; linarith]
  · have hpd2 : 0 ≤ pdRaw lam mu * ds := mul_nonneg hpd hds
    have hs : 0 < phRaw lam mu + pdRaw lam mu * ds + paRaw lam mu := by linarith
    have hout : outcome_probs lam mu ds
        = (phRaw lam mu / (phRaw lam mu + pdRaw lam mu * ds + paRaw lam mu),
           pdRaw lam mu * ds / (phRaw lam mu + pdRaw lam mu * ds + paRaw lam mu),
           paRaw lam mu / (phRaw lam mu + pdRaw lam mu * ds + paRaw lam mu)) := by
      simp only [outcome_probs]
      rw [if_pos h, if_pos hs]
    rw [hout]
    have := unit3_of_normalise (phRaw lam mu) (pdRaw lam mu * ds) (paRaw lam mu)
      hph hpd2 hpa hs
    exact ⟨this.1, by rw [this.2]; norm_num⟩

end Pred

namespace EloM

theorem elo_match_probs_unit (eh ea hap sc nu : ℝ) (hnu : 0 ≤ nu) :
    inUnit3 (elo_match_probs eh ea hap sc nu) ∧
      sum3 (elo_match_probs eh ea hap sc nu) = 1 := by
  simp only [elo_match_probs]
  have hr : 0 < (10 : ℝ) ^ (((eh + hap) - ea) / max sc 1e-6) :=
    Real.rpow_pos_of_pos (by norm_num) _
  set r := (10 : ℝ) ^ (((eh + hap) - ea) / max sc 1e-6) with hrdef
  have hsq : 0 ≤ Real.sqrt r := Real.sqrt_nonneg r
  have hnusq : 0 ≤ nu * Real.sqrt r := mul_nonneg hnu hsq
  have hden : 0 < r + 1 + nu * Real.sqrt r := by linarith
  rw [if_neg (not_le.2 hden)]
  have hs : r / (r + 1 + nu * Real.sqrt r) + nu * Real.sqrt r / (r + 1 + nu * Real.sqrt r)
      + 1 / (r + 1 + nu * Real.sqrt r) = 1 := by
    rw [div_add_div_same, div_add_div_same, div_eq_one_iff_eq hden.ne']
    ring
  rw [hs]
  rw [if_neg (by norm_num : ¬ (1 : ℝ) ≤ 0)]
  have h1 : 0 ≤ r / (r + 1 + nu * Real.sqrt r) := div_nonneg hr.le hden.le
  have h2 : 0 ≤ nu * Real.sqrt r / (r + 1 + nu * Real.sqrt r) := div_nonneg hnusq hden.le
  have h3 : 0 ≤ 1 / (r + 1 + nu * Real.sqrt r) := div_nonneg zero_le_one hden.le
  have h1' : r / (r + 1 + nu * Real.sqrt r) ≤ 1 := div_le_one_of_le₀ (by linarith) hden.le
  have h2' : nu * Real.sqrt r / (r + 1 + nu * Real.sqrt r) ≤ 1 :=
    div_le_one_of_le₀ (by linarith) hden.le
  have h3' : 1 / (r + 1 + nu * Real.sqrt r) ≤ 1 := div_le_one_of_le₀ (by linarith) hden.le
  refine ⟨⟨⟨by simpa using h1, by simpa using h1'⟩,
    ⟨by simpa using h2, by simpa using h2'⟩,
    ⟨by simpa using h3, by simpa using h3'⟩⟩, ?_⟩
  show r / (r + 1 + nu * Real.sqrt r) / 1 + nu * Real.sqrt r / (r + 1 + nu * Real.sqrt r) / 1
      + 1 / (r + 1 + nu * Real.sqrt r) / 1 = 1
  rw [div_one, div_one, div_one]
  exact hs

end EloM

namespace Gen

theorem blend_unit (pP pE : ℝ × ℝ × ℝ) (w : ℝ) (hP : nonneg3 pP) (hE : nonneg3 pE) :
    inUnit3 (blend pP pE w) ∧ sum3 (blend pP pE w) = 1 := by
  obtain ⟨hp1, hp2, hp3⟩ := hP
  obtain ⟨he1, he2, he3⟩ := hE
  simp only [blend]
  have hw0 : 0 ≤ min (max w 0) 1 := le_min (le_max_right w 0) zero_le_one
  have hw1 : min (max w 0) 1 ≤ 1 := min_le_right _ _
  have h1w : 0 ≤ 1 - min (max w 0) 1 := by linarith
  have hH : 0 ≤ (1 - min (max w 0) 1) * pP.1 + min (max w 0) 1 * pE.1 :=
    add_nonneg (mul_nonneg h1w hp1) (mul_nonneg hw0 he1)
  have hD : 0 ≤ (1 - min (max w 0) 1) * pP.2.1 + min (max w 0) 1 * pE.2.1 :=
    add_nonneg (mul_nonneg h1w hp2) (mul_nonneg hw0 he2)
  have hA : 0 ≤ (1 - min (max w 0) 1) * pP.2.2 + min (max w 0) 1 * pE.2.2 :=
    add_nonneg (mul_nonneg h1w hp3) (mul_nonneg hw0 he3)
  split
  · constructor
    · refine ⟨⟨by norm_num, by norm_num⟩, ⟨by norm_num, by norm_num⟩,
        ⟨by norm_num, by norm_num⟩⟩
    · show (1 : ℝ)/3 + 1/3 + 1/3 = 1
      norm_num
  · rename_i hs
    have hs' : 0 < (1 - min (max w 0) 1) * pP.1 + min (max w 0) 1 * pE.1
        + ((1 - min (max w 0) 1) * pP.2.1 + min (max w 0) 1 * pE.2.1)
        + ((1 - min (max w 0) 1) * pP.2.2 + min (max w 0) 1 * pE.2.2) := lt_of_not_le hs
    exact unit3_of_normalise _ _ _ hH hD hA hs'

end Gen

namespace Pred

theorem pois_cross_lt {lam mu : ℝ} (h : max mu 1e-9 < max lam 1e-9) {i j : ℕ} (hji : j < i) :
    pois j lam * pois i mu < pois i lam * pois j mu := by
  have hM0 : (0 : ℝ) < max mu 1e-9 := lt_of_lt_of_le (by norm_num) (le_max_right _ _)
  have hL0 : (0 : ℝ) < max lam 1e-9 := hM0.trans h
  have hd : i - j ≠ 0 := by omega
  have hkey : (max mu 1e-9) ^ (i - j) < (max lam 1e-9) ^ (i - j) :=
    pow_lt_pow_left h hM0.le hd
  have hpowM : (max mu 1e-9) ^ i = (max mu 1e-9) ^ j * (max mu 1e-9) ^ (i - j) := by
    rw [← pow_add]; congr 1; omega
  have hpowL : (max lam 1e-9) ^ i = (max lam 1e-9) ^ j * (max lam 1e-9) ^ (i - j) := by
    rw [← pow_add]; congr 1; omega
  have hA : 0 < Real.exp (-(max lam 1e-9)) * (max lam 1e-9) ^ j / (Nat.factorial j)
      * (Real.exp (-(max mu 1e-9)) * (max mu 1e-9) ^ j / (Nat.factorial i)) := by positivity
  have hmain := mul_lt_mul_of_pos_left hkey hA
  have e1 : Real.exp (-(max lam 1e-9)) * (max lam 1e-9) ^ j / (Nat.factorial j)
      * (Real.exp (-(max mu 1e-9)) * ((max mu 1e-9) ^ j * (max mu 1e-9) ^ (i - j))
        / (Nat.factorial i))
      = Real.exp (-(max lam 1e-9)) * (max lam 1e-9) ^ j / (Nat.factorial j)
      * (Real.exp (-(max mu 1e-9)) * (max mu 1e-9) ^ j / (Nat.factorial i))
      * (max mu 1e-9) ^ (i - j) := by
    ring
  have e2 : Real.exp (-(max lam 1e-9)) * ((max lam 1e-9) ^ j * (max lam 1e-9) ^ (i - j))
      / (Nat.factorial i)
      * (Real.exp (-(max mu 1e-9)) * (max mu 1e-9) ^ j / (Nat.factorial j))
      = Real.exp (-(max lam 1e-9)) * (max lam 1e-9) ^ j / (Nat.factorial j)
      * (Real.exp (-(max mu 1e-9)) * (max mu 1e-9) ^ j / (Nat.factorial i))
      * (max lam 1e-9) ^ (i - j) := by
    ring
  simp only [pois]
  rw [hpowM, hpowL, e1, e2]
  exact mul_lt_mul_of_pos_left hkey hA

theorem paRaw_lt_phRaw {lam mu : ℝ} (h : max mu 1e-9 < max lam 1e-9) :
    paRaw lam mu < phRaw lam mu := by
  have hswap : paRaw lam mu
      = ∑ i ∈ Finset.range 13, ∑ j ∈ Finset.range 13,
          if j < i then pois j lam * pois i mu else 0 := by
    rw [paRaw, Finset.sum_comm]
  rw [hswap, phRaw]
  apply Finset.sum_lt_sum
  · intro i _
    apply Finset.sum_le_sum
    intro j _
    split
    · rename_i hj
      exact (pois_cross_lt h hj).le
    · exact le_refl _
  · refine ⟨1, Finset.mem_range.2 (by norm_num), ?_⟩
    apply Finset.sum_lt_sum
    · intro j _
      split
      · rename_i hj
        exact (pois_cross_lt h hj).le
      · exact le_refl _
    · refine ⟨0, Finset.mem_range.2 (by norm_num), ?_⟩
      simp only [Nat.zero_lt_one, if_pos]
      exact pois_cross_lt h Nat.zero_lt_one

end Pred

/-- Claim C6 (amended): with `draw_scale = 1`, `outcome_probs 1.5 1` satisfies
`p_home > p_away > 0`; and for every fixed home rate, `p_home` is strictly
decreasing in the away rate on `lam_away ≥ 1e-9`, the region where the
`max(lam, 1e-9)` clamp inside `_pois` is inactive.  (As stated, over all
positive away rates, the claim fails: see the counterexample.) -/
theorem claim_C6_amended :
    ((Pred.outcome_probs 1.5 1 1).1 > (Pred.outcome_probs 1.5 1 1).2.2 ∧
      (Pred.outcome_probs 1.5 1 1).2.2 > 0) ∧
    (∀ lam mu1 mu2 : ℝ, 1e-9 ≤ mu1 → mu1 < mu2 →
      (Pred.outcome_probs lam mu2 1).1 < (Pred.outcome_probs lam mu1 1).1) := by
  constructor
  · rw [Pred.outcome_probs_one]
    constructor
    · show Pred.paRaw 1.5 1 < Pred.phRaw 1.5 1
      apply Pred.paRaw_lt_phRaw
      rw [max_eq_left (by norm_num : (1e-9 : ℝ) ≤ 1),
        max_eq_left (by norm_num : (1e-9 : ℝ) ≤ 1.5)]
      norm_num
    · exact Pred.paRaw_pos 1.5 1
  · intro lam mu1 mu2 h1 h12
    rw [Pred.outcome_probs_one, Pred.outcome_probs_one]
    exact Pred.phRaw_strict_anti lam h1 h12

/-- Witness for C6: concrete rates `1 < 2` discharging the hypotheses of the
monotonicity part. -/
theorem claim_C6_witness :
    (1e-9 : ℝ) ≤ 1 ∧ (1 : ℝ) < 2 ∧
      (Pred.outcome_probs 1.5 2 1).1 < (Pred.outcome_probs 1.5 1 1).1 :=
  ⟨by norm_num, by norm_num, claim_C6_amended.2 1.5 1 2 (by norm_num) (by norm_num)⟩

/-- Claim C6 as stated is refuted below the `1e-9` clamp of `_pois`:
increasing the away rate from `1e-10` to `2e-10` leaves `p_home` unchanged,
so `p_home` is not strictly decreasing over all positive away rates. -/
theorem claim_C6_counterexample :
    (0 : ℝ) < 1e-10 ∧ (1e-10 : ℝ) < 2e-10 ∧
      ¬ ((Pred.outcome_probs 1.5 2e-10 1).1 < (Pred.outcome_probs 1.5 1e-10 1).1) := by
  refine ⟨by norm_num, by norm_num, ?_⟩
  have hp : ∀ k : ℕ, Pred.pois k (2e-10 : ℝ) = Pred.pois k (1e-10 : ℝ) := by
    intro k
    rw [Pred.pois, Pred.pois, max_eq_right (by norm_num), max_eq_right (by norm_num)]
  have hph : Pred.phRaw 1.5 (2e-10) = Pred.phRaw 1.5 (1e-10) := by
    rw [Pred.phRaw, Pred.phRaw]
    refine Finset.sum_congr rfl fun i _ => Finset.sum_congr rfl fun j _ => ?_
    rw [hp j]
  rw [Pred.outcome_probs_one, Pred.outcome_probs_one]
  show ¬ (Pred.phRaw 1.5 2e-10 < Pred.phRaw 1.5 1e-10)
  rw [hph]
  exact lt_irrefl _

/-- Claim C1 (amended): all triples produced by the engine have components in
`[0,1]` and sum to 1 within 0.01, with the Poisson rates restricted to the
engine's operating range `(0, 3.5]` (the cap applied by
`expected_goals_for_pair`) and a nonnegative `draw_scale`; `elo_match_probs`
needs only `draw_nu ≥ 0`, and the blend needs only nonnegative component
triples.  (As stated, for arbitrary positive rates, the claim fails: see the
counterexample.) -/
theorem claim_C1_amended :
    (∀ lam mu ds : ℝ, 0 < lam → lam ≤ 3.5 → 0 < mu → mu ≤ 3.5 → 0 ≤ ds →
      inUnit3 (Pred.outcome_probs lam mu ds) ∧
        |sum3 (Pred.outcome_probs lam mu ds) - 1| ≤ 0.01) ∧
    (∀ eh ea hap sc nu : ℝ, 0 < sc → 0 ≤ nu →
      inUnit3 (EloM.elo_match_probs eh ea hap sc nu) ∧
        |sum3 (EloM.elo_match_probs eh ea hap sc nu) - 1| ≤ 0.01) ∧
    (∀ pP pE : ℝ × ℝ × ℝ, ∀ w : ℝ, nonneg3 pP → nonneg3 pE →
      inUnit3 (Gen.blend pP pE w) ∧ |sum3 (Gen.blend pP pE w) - 1| ≤ 0.01) := by
  refine ⟨?_, ?_, ?_⟩
  · intro lam mu ds h1 h2 h3 h4 h5
    exact Pred.outcome_probs_unit lam mu ds h1 h2 h3 h4 h5
  · intro eh ea hap sc nu _ hnu
    obtain ⟨hu, hs⟩ := EloM.elo_match_probs_unit eh ea hap sc nu hnu
    exact ⟨hu, by rw [hs]; norm_num⟩
  · intro pP pE w hP hE
    obtain ⟨hu, hs⟩ := Gen.blend_unit pP pE w hP hE
    exact ⟨hu, by rw [hs]; norm_num⟩

/-- Witness for C1 at concrete inputs for each of the three producers. -/
theorem claim_C1_witness :
    (inUnit3 (Pred.outcome_probs 1.5 1.2 0.95) ∧
      |sum3 (Pred.outcome_probs 1.5 1.2 0.95) - 1| ≤ 0.01) ∧
    (inUnit3 (EloM.elo_match_probs 1500 1480 60 400 0.35) ∧
      |sum3 (EloM.elo_match_probs 1500 1480 60 400 0.35) - 1| ≤ 0.01) ∧
    (inUnit3 (Gen.blend (1/2, 1/4, 1/4) (1/3, 1/3, 1/3) 0.4) ∧
      |sum3 (Gen.blend (1/2, 1/4, 1/4) (1/3, 1/3, 1/3) 0.4) - 1| ≤ 0.01) :=
  ⟨claim_C1_amended.1 1.5 1.2 0.95 (by norm_num) (by norm_num) (by norm_num) (by norm_num)
      (by norm_num),
   claim_C1_amended.2.1 1500 1480 60 400 0.35 (by norm_num) (by norm_num),
   claim_C1_amended.2.2 (1/2, 1/4, 1/4) (1/3, 1/3, 1/3) 0.4
      ⟨by norm_num, by norm_num, by norm_num⟩ ⟨by norm_num, by norm_num, by norm_num⟩⟩

/-- Claim C1 as stated is refuted: at `lam_home = lam_away = 30` with the
default `draw_scale = 1`, `outcome_probs` performs no renormalisation and its
truncated `13 × 13` grid retains almost no mass, so the triple sums far below
`1 - 0.01`. -/
theorem claim_C1_counterexample :
    (0 : ℝ) < 30 ∧ (0.01 : ℝ) < |sum3 (Pred.outcome_probs 30 30 1) - 1| := by
  refine ⟨by norm_num, ?_⟩
  have h30 : max (30 : ℝ) 1e-9 = 30 := max_eq_left (by norm_num)
  have hq13 : expPoly 13 (30 : ℝ) = 137991443537 / 77 := by
    simp [expPoly, Finset.sum_range_succ, Nat.factorial]
    norm_num
  have hq27 : expPoly 27 (30 : ℝ) = 1230280274120728811233 / 430636843 := by
    simp [expPoly, Finset.sum_range_succ, Nat.factorial]
    norm_num
  have hle : (1230280274120728811233 / 430636843 : ℝ) ≤ Real.exp 30 := by
    rw [← hq27]
    exact Real.sum_le_exp_of_nonneg (by norm_num) 27
  have hpos : (0 : ℝ) < 1230280274120728811233 / 430636843 := by norm_num
  have hcdf : poisCdf 13 (30 : ℝ) ≤ 0.001 := by
    rw [poisCdf, hq13, Real.exp_neg, inv_eq_one_div]
    have hinv : (1 : ℝ) / Real.exp 30 ≤ 1 / (1230280274120728811233 / 430636843) :=
      one_div_le_one_div_of_le hpos hle
    calc (1 / Real.exp 30) * (137991443537 / 77 : ℝ)
        ≤ (1 / (1230280274120728811233 / 430636843 : ℝ)) * (137991443537 / 77) :=
          mul_le_mul_of_nonneg_right hinv (by norm_num)
      _ ≤ 0.001 := by norm_num
  have hnn : 0 ≤ poisCdf 13 (30 : ℝ) :=
    mul_nonneg (Real.exp_pos _).le (expPoly_pos (by norm_num : (0 : ℝ) < 30) 12).le
  have hsum : sum3 (Pred.outcome_probs 30 30 1) = poisCdf 13 30 * poisCdf 13 30 := by
    rw [Pred.outcome_probs_one]
    show Pred.phRaw 30 30 + Pred.pdRaw 30 30 + Pred.paRaw 30 30 = _
    rw [Pred.raw_total, h30]
  rw [hsum]
  have hT : poisCdf 13 (30 : ℝ) * poisCdf 13 30 ≤ 0.001 * 0.001 :=
    mul_le_mul hcdf hcdf hnn (by norm_num)
  have habs : |poisCdf 13 (30 : ℝ) * poisCdf 13 30 - 1|
      = 1 - poisCdf 13 30 * poisCdf 13 30 := by
    rw [abs_of_neg (by nlinarith)]
    ring
  rw [habs]
  nlinarith

namespace ModelM

theorem rates_fst_pos (p : PoissonDC) (rh ra : ℝ) (hf : 0 < p.floor_rate) :
    0 < (rates p rh ra).1 := by
  simp only [rates]
  exact lt_of_lt_of_le hf (le_max_left _ _)

theorem rates_snd_pos (p : PoissonDC) (rh ra : ℝ) (hf : 0 < p.floor_rate) :
    0 < (rates p rh ra).2 := by
  simp only [rates]
  exact lt_of_lt_of_le hf (le_max_left _ _)

theorem poissonRaw_pos {rate : ℝ} (h : 0 < rate) (k : ℕ) : 0 < poissonRaw rate k := by
  rw [poissonRaw]
  have h1 : (0 : ℝ) < max 1 ((Nat.factorial k : ℝ)) := lt_of_lt_of_le one_pos (le_max_left _ _)
  positivity

theorem vecSum_pos {rate : ℝ} (h : 0 < rate) (maxG : ℕ) :
    0 < ∑ i ∈ Finset.range (maxG + 1), poissonRaw rate i :=
  Finset.sum_pos (fun i _ => poissonRaw_pos h i) ⟨0, Finset.mem_range.2 (Nat.succ_pos _)⟩

theorem poissonVec_pos {rate : ℝ} (h : 0 < rate) (maxG k : ℕ) :
    0 < poissonVec rate maxG k :=
  div_pos (poissonRaw_pos h k) (vecSum_pos h maxG)

theorem vec_total {rate : ℝ} (h : 0 < rate) (maxG : ℕ) :
    ∑ k ∈ Finset.range (maxG + 1), poissonVec rate maxG k = 1 := by
  simp only [poissonVec]
  rw [← Finset.sum_div, div_self (vecSum_pos h maxG).ne']

theorem gridRaw_pos (p : PoissonDC) (rh ra : ℝ) (hf : 0 < p.floor_rate) (i j : ℕ) :
    0 < gridRaw p rh ra i j :=
  mul_pos (poissonVec_pos (rates_fst_pos p rh ra hf) _ _)
    (poissonVec_pos (rates_snd_pos p rh ra hf) _ _)

theorem gridRawSum_eq_one (p : PoissonDC) (rh ra : ℝ) (hf : 0 < p.floor_rate) :
    gridSum (gridRaw p rh ra) p.max_goals = 1 := by
  rw [gridSum]
  simp only [gridRaw]
  rw [← Finset.sum_mul_sum, vec_total (rates_fst_pos p rh ra hf),
    vec_total (rates_snd_pos p rh ra hf), mul_one]

theorem gridAdj_nonneg (p : PoissonDC) (rh ra : ℝ) (hf : 0 < p.floor_rate) (i j : ℕ) :
    0 ≤ gridAdj p rh ra i j := by
  rw [gridAdj]
  split
  · exact mul_nonneg (gridRaw_pos p rh ra hf i j).le (le_max_left 0 _)
  · exact (gridRaw_pos p rh ra hf i j).le

theorem gridSum_div (g : ℕ → ℕ → ℝ) (c : ℝ) (maxG : ℕ) :
    gridSum (fun i j => g i j / c) maxG = gridSum g maxG / c := by
  simp [gridSum, Finset.sum_div]

theorem buildGrid_nonneg (p : PoissonDC) (rh ra : ℝ) (hf : 0 < p.floor_rate) (i j : ℕ) :
    0 ≤ buildGrid p rh ra i j := by
  rw [buildGrid]
  split
  · refine div_nonneg (gridRaw_pos p rh ra hf i j).le ?_
    rw [gridRawSum_eq_one p rh ra hf]
    norm_num
  · rename_i hc
    exact div_nonneg (gridAdj_nonneg p rh ra hf i j) (le_of_lt (lt_of_not_le hc))

theorem buildGridSum_eq_one (p : PoissonDC) (rh ra : ℝ) (hf : 0 < p.floor_rate) :
    gridSum (buildGrid p rh ra) p.max_goals = 1 := by
  by_cases hc : gridSum (gridAdj p rh ra) p.max_goals ≤ 0
  · have hfun : buildGrid p rh ra = fun i j =>
        gridRaw p rh ra i j / gridSum (gridRaw p rh ra) p.max_goals :=
      funext fun i => funext fun j => if_pos hc
    rw [hfun, gridSum_div, gridRawSum_eq_one p rh ra hf]
    norm_num
  · have hfun : buildGrid p rh ra = fun i j =>
        gridAdj p rh ra i j / gridSum (gridAdj p rh ra) p.max_goals :=
      funext fun i => funext fun j => if_neg hc
    rw [hfun, gridSum_div]
    exact div_self (ne_of_gt (lt_of_not_le hc))

end ModelM

/-- Claim C2 (confirmed): for every pair of ratings (and any parameters with a
positive `floor_rate`, which includes the defaults), every cell of the plain
outer-product grid and of the final Dixon-Coles-adjusted renormalised grid of
`PoissonDC.build_grid` is nonnegative, and both grids sum to 1 within `1e-6`
(in exact arithmetic the sums are exactly 1, since `_poisson_vec` normalises
each pmf and `build_grid` renormalises after the adjustment). -/
theorem claim_C2 (p : ModelM.PoissonDC) (r_home r_away : ℝ) (hf : 0 < p.floor_rate) :
    (∀ i j : ℕ, 0 ≤ ModelM.gridRaw p r_home r_away i j) ∧
    |ModelM.gridSum (ModelM.gridRaw p r_home r_away) p.max_goals - 1| ≤ 1e-6 ∧
    (∀ i j : ℕ, 0 ≤ ModelM.buildGrid p r_home r_away i j) ∧
    |ModelM.gridSum (ModelM.buildGrid p r_home r_away) p.max_goals - 1| ≤ 1e-6 := by
  refine ⟨fun i j => (ModelM.gridRaw_pos p r_home r_away hf i j).le, ?_,
    fun i j => ModelM.buildGrid_nonneg p r_home r_away hf i j, ?_⟩
  · rw [ModelM.gridRawSum_eq_one p r_home r_away hf]
    norm_num
  · rw [ModelM.buildGridSum_eq_one p r_home r_away hf]
    norm_num

/-- Witness for C2: the default `PoissonDC()` parameters and concrete
ratings. -/
theorem claim_C2_witness :
    0 < ModelM.defaultParams.floor_rate ∧
      |ModelM.gridSum (ModelM.buildGrid ModelM.defaultParams 1500 1400)
          ModelM.defaultParams.max_goals - 1| ≤ 1e-6 :=
  ⟨by norm_num [ModelM.defaultParams],
   (claim_C2 ModelM.defaultParams 1500 1400 (by norm_num [ModelM.defaultParams])).2.2.2⟩

/-- Claim C3 (amended): `build_grid` multiplies cell `(0,0)` by
`1 - lambda*mu*rho`, `(0,1)` by `1 + lambda*rho`, `(1,0)` by `1 + mu*rho` and
`(1,1)` by `1 - rho` (each clamped below at 0 by `max(0.0, ...)`), leaves all
other cells unchanged, and renormalises the grid to total 1; for `rho < 0`
the `(0,0)` and `(1,1)` multipliers exceed 1 (raising the low-score/draw
mass) while the `(0,1)` and `(1,0)` multipliers are below 1.  The spec's
multipliers `(1+rho)/(1-rho)/(1-rho)/(1+rho)` do not match the code: see the
counterexample. -/
theorem claim_C3_amended (p : ModelM.PoissonDC) (r_home r_away : ℝ)
    (hf : 0 < p.floor_rate) (hg : 1 ≤ p.max_goals) :
    (ModelM.gridAdj p r_home r_away 0 0 = ModelM.gridRaw p r_home r_away 0 0 *
      max 0 (1 - (ModelM.rates p r_home r_away).1 * (ModelM.rates p r_home r_away).2 * p.rho)) ∧
    (ModelM.gridAdj p r_home r_away 0 1 = ModelM.gridRaw p r_home r_away 0 1 *
      max 0 (1 + (ModelM.rates p r_home r_away).1 * p.rho)) ∧
    (ModelM.gridAdj p r_home r_away 1 0 = ModelM.gridRaw p r_home r_away 1 0 *
      max 0 (1 + (ModelM.rates p r_home r_away).2 * p.rho)) ∧
    (ModelM.gridAdj p r_home r_away 1 1 = ModelM.gridRaw p r_home r_away 1 1 *
      max 0 (1 - p.rho)) ∧
    (∀ i j : ℕ, ¬ ((i = 0 ∨ i = 1) ∧ (j = 0 ∨ j = 1)) →
      ModelM.gridAdj p r_home r_away i j = ModelM.gridRaw p r_home r_away i j) ∧
    (p.rho < 0 →
      1 < 1 - (ModelM.rates p r_home r_away).1 * (ModelM.rates p r_home r_away).2 * p.rho ∧
      1 < 1 - p.rho ∧
      1 + (ModelM.rates p r_home r_away).1 * p.rho < 1 ∧
      1 + (ModelM.rates p r_home r_away).2 * p.rho < 1) ∧
    ModelM.gridSum (ModelM.buildGrid p r_home r_away) p.max_goals = 1 := by
  have hlam := ModelM.rates_fst_pos p r_home r_away hf
  have hmu := ModelM.rates_snd_pos p r_home r_away hf
  refine ⟨?_, ?_, ?_, ?_, ?_, ?_, ModelM.buildGridSum_eq_one p r_home r_away hf⟩
  · rw [ModelM.gridAdj, if_pos ⟨⟨Or.inl rfl, Or.inl rfl⟩, Nat.zero_le _, Nat.zero_le _⟩]
    simp [ModelM.f_adj]
  · rw [ModelM.gridAdj, if_pos ⟨⟨Or.inl rfl, Or.inr rfl⟩, Nat.zero_le _, hg⟩]
    simp [ModelM.f_adj]
  · rw [ModelM.gridAdj, if_pos ⟨⟨Or.inr rfl, Or.inl rfl⟩, hg, Nat.zero_le _⟩]
    simp [ModelM.f_adj]
  · rw [ModelM.gridAdj, if_pos ⟨⟨Or.inr rfl, Or.inr rfl⟩, hg, hg⟩]
    simp [ModelM.f_adj]
  · intro i j hne
    rw [ModelM.gridAdj, if_neg (fun hc => hne hc.1)]
  · intro hrho
    have h1 : 0 < (ModelM.rates p r_home r_away).1 * (ModelM.rates p r_home r_away).2 :=
      mul_pos hlam hmu
    refine ⟨by nlinarith, by linarith, by nlinarith, by nlinarith⟩

/-- Witness for C3 at the default parameters and equal ratings. -/
theorem claim_C3_witness :
    0 < ModelM.defaultParams.floor_rate ∧ 1 ≤ ModelM.defaultParams.max_goals ∧
      ModelM.gridAdj ModelM.defaultParams 0 0 1 1
        = ModelM.gridRaw ModelM.defaultParams 0 0 1 1 *
            max 0 (1 - ModelM.defaultParams.rho) :=
  ⟨by norm_num [ModelM.defaultParams], by norm_num [ModelM.defaultParams],
   (claim_C3_amended ModelM.defaultParams 0 0 (by norm_num [ModelM.defaultParams])
      (by norm_num [ModelM.defaultParams])).2.2.2.1⟩

/-- Claim C3 as stated is refuted: at the default parameters with equal
ratings, `lambda = 1.55` and `mu = 1.25`, so the code multiplies cell `(0,0)`
by `1 - lambda*mu*rho = 1.19375`, not by `1 + rho = 0.9` as the claim
asserts. -/
theorem claim_C3_counterexample :
    ModelM.gridAdj ModelM.defaultParams 0 0 0 0
      ≠ (1 + ModelM.defaultParams.rho) * ModelM.gridRaw ModelM.defaultParams 0 0 0 0 := by
  have hf : (0 : ℝ) < ModelM.defaultParams.floor_rate := by norm_num [ModelM.defaultParams]
  have hraw : 0 < ModelM.gridRaw ModelM.defaultParams 0 0 0 0 :=
    ModelM.gridRaw_pos ModelM.defaultParams 0 0 hf 0 0
  have hlam : (ModelM.rates ModelM.defaultParams 0 0).1 = 1.55 := by
    simp only [ModelM.rates, ModelM.defaultParams]
    norm_num [Real.exp_zero]
  have hmu : (ModelM.rates ModelM.defaultParams 0 0).2 = 1.25 := by
    simp only [ModelM.rates, ModelM.defaultParams]
    norm_num [Real.exp_zero]
  have hadj : ModelM.gridAdj ModelM.defaultParams 0 0 0 0
      = ModelM.gridRaw ModelM.defaultParams 0 0 0 0 * 1.19375 := by
    rw [ModelM.gridAdj, if_pos ⟨⟨Or.inl rfl, Or.inl rfl⟩, Nat.zero_le _, Nat.zero_le _⟩]
    have hfa : ModelM.f_adj (ModelM.rates ModelM.defaultParams 0 0).1
        (ModelM.rates ModelM.defaultParams 0 0).2 ModelM.defaultParams.rho 0 0
        = 1 - (ModelM.rates ModelM.defaultParams 0 0).1 *
            (ModelM.rates ModelM.defaultParams 0 0).2 * ModelM.defaultParams.rho := by
      simp [ModelM.f_adj]
    rw [hfa, hlam, hmu]
    norm_num [ModelM.defaultParams]
  intro heq
  rw [hadj] at heq
  have hrho : ModelM.defaultParams.rho = -0.10 := rfl
  rw [hrho] at heq
  nlinarith [hraw]

theorem getD_upsert_self {A : Type} (l : List (String × A)) (k : String) (v d : A) :
    getD (upsert l k v) k d = v := by
  induction l with
  | nil => simp [upsert, getD]
  | cons hd t ih =>
    obtain ⟨k1, v1⟩ := hd
    by_cases h : k1 = k
    · simp [upsert, getD, h]
    · simp [upsert, getD, h, ih]

theorem getD_upsert_ne {A : Type} (l : List (String × A)) {k k2 : String} (v d : A)
    (h : k2 ≠ k) : getD (upsert l k v) k2 d = getD l k2 d := by
  induction l with
  | nil => simp [upsert, getD, Ne.symm h]
  | cons hd t ih =>
    obtain ⟨k1, v1⟩ := hd
    by_cases h1 : k1 = k
    · subst h1
      simp [upsert, getD, Ne.symm h]
    · simp only [upsert, if_neg h1, getD]
      by_cases h2 : k1 = k2
      · simp [h2]
      · simp [h2, ih]

theorem mem_keysOf_upsert {A : Type} (l : List (String × A)) (k m : String) (v : A) :
    m ∈ keysOf (upsert l k v) ↔ m = k ∨ m ∈ keysOf l := by
  induction l with
  | nil => simp [upsert, keysOf]
  | cons hd t ih =>
    obtain ⟨k1, v1⟩ := hd
    by_cases h : k1 = k
    · have hu : upsert ((k1, v1) :: t) k v = (k, v) :: t := by
        simp [upsert, h]
      rw [hu]
      subst h
      simp only [keysOf, List.map_cons, List.mem_cons]
      tauto
    · simp only [upsert, if_neg h, keysOf, List.map_cons, List.mem_cons]
      rw [show List.map Prod.fst (upsert t k v) = keysOf (upsert t k v) from rfl, ih,
        show List.map Prod.fst t = keysOf t from rfl]
      tauto

theorem nodup_keysOf_upsert {A : Type} (l : List (String × A)) (k : String) (v : A)
    (h : (keysOf l).Nodup) : (keysOf (upsert l k v)).Nodup := by
  induction l with
  | nil => simp [upsert, keysOf]
  | cons hd t ih =>
    obtain ⟨k1, v1⟩ := hd
    by_cases hk : k1 = k
    · subst hk
      simpa [upsert, keysOf] using h
    · simp only [keysOf, List.map_cons, List.nodup_cons] at h
      simp only [upsert, if_neg hk, keysOf, List.map_cons, List.nodup_cons]
      refine ⟨?_, ih h.2⟩
      intro hmem
      rw [show (List.map Prod.fst (upsert t k v)) = keysOf (upsert t k v) from rfl,
        mem_keysOf_upsert] at hmem
      rcases hmem with h1 | h1
      · exact hk h1
      · exact h.1 h1

theorem sumVal_sub_upsert (init : ℝ) (l : List (String × ℝ)) (k : String) (v : ℝ) :
    sumVal (upsert l k v) - init * (upsert l k v).length
      = (sumVal l - init * l.length) + (v - getD l k init) := by
  induction l with
  | nil => simp [upsert, sumVal, getD]
  | cons hd t ih =>
    obtain ⟨k1, v1⟩ := hd
    by_cases h : k1 = k
    · simp only [upsert, if_pos h, sumVal, getD, List.map_cons, List.sum_cons,
        List.length_cons]
      push_cast
      ring
    · simp only [upsert, if_neg h, sumVal, getD, List.map_cons, List.sum_cons,
        List.length_cons]
      have ih2 : (List.map Prod.snd (upsert t k v)).sum - init * (upsert t k v).length
          = ((List.map Prod.snd t).sum - init * t.length) + (v - getD t k init) := ih
      push_cast
      push_cast at ih2
      linarith

namespace EloM

theorem step_ratings_eq (now : ℤ) (k_base scale hl ha init : ℝ) (st : State) (m : MatchRow) :
    ∃ c : ℝ, (step now k_base scale hl ha init st m).ratings
      = upsert (upsert st.ratings m.home (getD st.ratings m.home init + c)) m.away
          (getD st.ratings m.away init - c) :=
  ⟨_, rfl⟩

theorem step_zero_sum (now : ℤ) (k_base scale hl ha init : ℝ) (st : State) (m : MatchRow)
    (hm : m.home ≠ m.away) :
    getD (step now k_base scale hl ha init st m).ratings m.home init
        - getD st.ratings m.home init
      = -(getD (step now k_base scale hl ha init st m).ratings m.away init
        - getD st.ratings m.away init) := by
  obtain ⟨c, hc⟩ := step_ratings_eq now k_base scale hl ha init st m
  rw [hc, getD_upsert_ne _ _ _ hm, getD_upsert_self, getD_upsert_self]
  ring

theorem step_phi (now : ℤ) (k_base scale hl ha init : ℝ) (st : State) (m : MatchRow)
    (hm : m.home ≠ m.away) :
    sumVal (step now k_base scale hl ha init st m).ratings
        - init * ((step now k_base scale hl ha init st m).ratings).length
      = sumVal st.ratings - init * st.ratings.length := by
  obtain ⟨c, hc⟩ := step_ratings_eq now k_base scale hl ha init st m
  rw [hc, sumVal_sub_upsert init, sumVal_sub_upsert init,
    getD_upsert_ne _ _ _ (Ne.symm hm)]
  ring

theorem step_keys_mem (now : ℤ) (k_base scale hl ha init : ℝ) (st : State) (m : MatchRow)
    (t : String) :
    t ∈ keysOf (step now k_base scale hl ha init st m).ratings
      ↔ t = m.away ∨ t = m.home ∨ t ∈ keysOf st.ratings := by
  obtain ⟨c, hc⟩ := step_ratings_eq now k_base scale hl ha init st m
  rw [hc, mem_keysOf_upsert, mem_keysOf_upsert]

theorem step_keys_nodup (now : ℤ) (k_base scale hl ha init : ℝ) (st : State) (m : MatchRow)
    (h : (keysOf st.ratings).Nodup) :
    (keysOf (step now k_base scale hl ha init st m).ratings).Nodup := by
  obtain ⟨c, hc⟩ := step_ratings_eq now k_base scale hl ha init st m
  rw [hc]
  exact nodup_keysOf_upsert _ _ _ (nodup_keysOf_upsert _ _ _ h)

theorem foldl_phi (now : ℤ) (k_base scale hl ha init : ℝ) (ms : List MatchRow) :
    ∀ st : State, (∀ m ∈ ms, m.home ≠ m.away) →
      sumVal ((ms.foldl (step now k_base scale hl ha init) st).ratings)
          - init * (((ms.foldl (step now k_base scale hl ha init) st).ratings)).length
        = sumVal st.ratings - init * st.ratings.length := by
  induction ms with
  | nil => intro st _; rfl
  | cons m t ih =>
    intro st h
    rw [List.foldl_cons,
      ih _ (fun x hx => h x (List.mem_cons_of_mem _ hx)),
      step_phi now k_base scale hl ha init st m (h m (List.mem_cons_self _ _))]

theorem foldl_keys_mem (now : ℤ) (k_base scale hl ha init : ℝ) (ms : List MatchRow)
    (t : String) :
    ∀ st : State,
      (t ∈ keysOf ((ms.foldl (step now k_base scale hl ha init) st).ratings)
        ↔ t ∈ keysOf st.ratings ∨ ∃ m ∈ ms, t = m.home ∨ t = m.away) := by
  induction ms with
  | nil => intro st; simp
  | cons m tl ih =>
    intro st
    rw [List.foldl_cons, ih, step_keys_mem]
    simp only [List.mem_cons]
    constructor
    · rintro ((h | h | h) | ⟨x, hx, hx2⟩)
      · exact Or.inr ⟨m, Or.inl rfl, Or.inr h⟩
      · exact Or.inr ⟨m, Or.inl rfl, Or.inl h⟩
      · exact Or.inl h
      · exact Or.inr ⟨x, Or.inr hx, hx2⟩
    · rintro (h | ⟨x, hx | hx, hx2⟩)
      · exact Or.inl (Or.inr (Or.inr h))
      · subst hx
        rcases hx2 with h2 | h2
        · exact Or.inl (Or.inr (Or.inl h2))
        · exact Or.inl (Or.inl h2)
      · exact Or.inr ⟨x, hx, hx2⟩

theorem foldl_keys_nodup (now : ℤ) (k_base scale hl ha init : ℝ) (ms : List MatchRow) :
    ∀ st : State, (keysOf st.ratings).Nodup →
      (keysOf ((ms.foldl (step now k_base scale hl ha init) st).ratings)).Nodup := by
  induction ms with
  | nil => intro st h; exact h
  | cons m tl ih =>
    intro st h
    rw [List.foldl_cons]
    exact ih _ (step_keys_nodup now k_base scale hl ha init st m h)

theorem build_elo_teams_eq (now : ℤ) (df : List MatchRow) (init kb sc hl ha : ℝ)
    (h : df ≠ []) :
    (build_elo now df init kb sc hl ha).teams
      = ((List.insertionSort (fun a b : MatchRow => a.date ≤ b.date) df).foldl
          (step now kb sc hl ha init) { ratings := [], games := [] }).ratings := by
  rw [build_elo, if_neg (by simpa using h)]

theorem build_elo_draw_nu_eq (now : ℤ) (df : List MatchRow) (init kb sc hl ha : ℝ)
    (h : df ≠ []) :
    (build_elo now df init kb sc hl ha).draw_nu
      = (2 * min (max
            ((((List.insertionSort (fun a b : MatchRow => a.date ≤ b.date) df).filter
                (fun m => m.home_goals = m.away_goals)).length : ℝ)
              / ((max (List.insertionSort (fun a b : MatchRow => a.date ≤ b.date) df).length
                  1 : ℕ) : ℝ)) 0.15) 0.35)
          / max (1 - min (max
            ((((List.insertionSort (fun a b : MatchRow => a.date ≤ b.date) df).filter
                (fun m => m.home_goals = m.away_goals)).length : ℝ)
              / ((max (List.insertionSort (fun a b : MatchRow => a.date ≤ b.date) df).length
                  1 : ℕ) : ℝ)) 0.15) 0.35) 1e-6 := by
  rw [build_elo, if_neg (by simpa using h)]

end EloM

/-- Claim C4 (confirmed): every single `build_elo` match update is zero-sum —
the amount `Δ = K·G·(actual − expected)` added to the home rating is exactly
the amount subtracted from the away rating — so for every match dataset in
which no match pairs a team with itself, the replay ends with a
duplicate-free ratings table holding exactly the teams that appear, whose
ratings sum to `init` times the number of distinct teams. -/
theorem claim_C4 (now : ℤ) (df : List EloM.MatchRow) (init kb sc hl ha : ℝ)
    (hne : ∀ m ∈ df, m.home ≠ m.away) :
    (∀ (st : EloM.State) (m : EloM.MatchRow), m.home ≠ m.away →
      getD (EloM.step now kb sc hl ha init st m).ratings m.home init
          - getD st.ratings m.home init
        = -(getD (EloM.step now kb sc hl ha init st m).ratings m.away init
          - getD st.ratings m.away init)) ∧
    (keysOf (EloM.build_elo now df init kb sc hl ha).teams).Nodup ∧
    (∀ t, t ∈ keysOf (EloM.build_elo now df init kb sc hl ha).teams ↔
      ∃ m ∈ df, t = m.home ∨ t = m.away) ∧
    sumVal (EloM.build_elo now df init kb sc hl ha).teams
      = init * ((EloM.build_elo now df init kb sc hl ha).teams).length := by
  refine ⟨fun st m hm => EloM.step_zero_sum now kb sc hl ha init st m hm, ?_⟩
  by_cases hdf : df = []
  · subst hdf
    refine ⟨?_, ?_, ?_⟩ <;> simp [EloM.build_elo, keysOf, sumVal]
  · have hperm := List.perm_insertionSort (fun a b : EloM.MatchRow => a.date ≤ b.date) df
    have hsne : ∀ m ∈ List.insertionSort (fun a b : EloM.MatchRow => a.date ≤ b.date) df,
        m.home ≠ m.away := fun m hm => hne m (hperm.mem_iff.1 hm)
    rw [EloM.build_elo_teams_eq now df init kb sc hl ha hdf]
    refine ⟨?_, ?_, ?_⟩
    · exact EloM.foldl_keys_nodup now kb sc hl ha init _ _ (by simp [keysOf])
    · intro t
      rw [EloM.foldl_keys_mem]
      simp only [keysOf, List.map_nil, List.not_mem_nil, false_or]
      simp only [hperm.mem_iff]
    · have hphi := EloM.foldl_phi now kb sc hl ha init
        (List.insertionSort (fun a b : EloM.MatchRow => a.date ≤ b.date) df)
        { ratings := [], games := [] } hsne
      simp only [sumVal, List.map_nil, List.sum_nil, List.length_nil] at hphi
      have : sumVal ((List.insertionSort (fun a b : EloM.MatchRow => a.date ≤ b.date)
          df).foldl (EloM.step now kb sc hl ha init)
            { ratings := [], games := [] }).ratings
          - init * (((List.insertionSort (fun a b : EloM.MatchRow => a.date ≤ b.date)
          df).foldl (EloM.step now kb sc hl ha init)
            { ratings := [], games := [] }).ratings).length = 0 := by
        simpa [sumVal] using hphi
      linarith
 
/-- Witness for C4: a single match between two distinct teams. -/
theorem claim_C4_witness :
    (∀ m ∈ [EloM.MatchRow.mk 0 "A" "B" 2 1], m.home ≠ m.away) ∧
      sumVal (EloM.build_elo 0 [EloM.MatchRow.mk 0 "A" "B" 2 1] 1500 20 400 365 60).teams
        = 1500 * ((EloM.build_elo 0 [EloM.MatchRow.mk 0 "A" "B" 2 1]
            1500 20 400 365 60).teams).length := by
  have hne : ∀ m ∈ [EloM.MatchRow.mk 0 "A" "B" 2 1], m.home ≠ m.away := by
    intro m hm
    simp only [List.mem_singleton] at hm
    subst hm
    decide
  exact ⟨hne, (claim_C4 0 _ 1500 20 400 365 60 hne).2.2.2⟩

/-- Claim C8 (confirmed): for every non-empty dataset `build_elo` sets
`draw_nu = 2r/(1−r)` with `r` the empirical draw rate clamped into
`[0.15, 0.35]` (the `max(1−r, 1e-6)` guard is inactive because `r ≤ 0.35`);
with no draws the clamp floors `r` at `0.15`, giving `draw_nu = 2·0.15/0.85`. -/
theorem claim_C8 (now : ℤ) (df : List EloM.MatchRow) (init kb sc hl ha : ℝ) (h : df ≠ []) :
    (EloM.build_elo now df init kb sc hl ha).draw_nu
      = 2 * min (max (((df.filter (fun m => m.home_goals = m.away_goals)).length : ℝ)
            / (df.length : ℝ)) 0.15) 0.35
        / (1 - min (max (((df.filter (fun m => m.home_goals = m.away_goals)).length : ℝ)
            / (df.length : ℝ)) 0.15) 0.35) ∧
    ((∀ m ∈ df, m.home_goals ≠ m.away_goals) →
      (EloM.build_elo now df init kb sc hl ha).draw_nu = 2 * 0.15 / 0.85) := by
  have hperm := List.perm_insertionSort (fun a b : EloM.MatchRow => a.date ≤ b.date) df
  have hlen : (List.insertionSort (fun a b : EloM.MatchRow => a.date ≤ b.date) df).length
      = df.length := hperm.length_eq
  have hfil : ((List.insertionSort (fun a b : EloM.MatchRow => a.date ≤ b.date) df).filter
        (fun m => m.home_goals = m.away_goals)).length
      = (df.filter (fun m => m.home_goals = m.away_goals)).length :=
    (hperm.filter _).length_eq
  have hmax : max df.length 1 = df.length := max_eq_left (List.length_pos.2 h)
  rw [EloM.build_elo_draw_nu_eq now df init kb sc hl ha h, hfil, hlen, hmax]
  set r0 : ℝ := ((df.filter (fun m => m.home_goals = m.away_goals)).length : ℝ)
      / (df.length : ℝ) with hr0
  have hr35 : min (max r0 0.15) 0.35 ≤ 0.35 := min_le_right _ _
  have hguard : max (1 - min (max r0 0.15) 0.35) 1e-6 = 1 - min (max r0 0.15) 0.35 :=
    max_eq_left (by linarith)
  rw [hguard]
  refine ⟨rfl, ?_⟩
  intro hnd
  have hfil0 : df.filter (fun m => m.home_goals = m.away_goals) = [] := by
    rw [List.filter_eq_nil]
    intro a ha
    simpa using hnd a ha
  have hr00 : r0 = 0 := by rw [hr0, hfil0]; simp
  rw [hr00, show max (0 : ℝ) 0.15 = 0.15 from max_eq_right (by norm_num),
    show min (0.15 : ℝ) 0.35 = 0.15 from min_eq_left (by norm_num)]
  norm_num

/-- Witness for C8: a one-match dataset with no draw. -/
theorem claim_C8_witness :
    ([EloM.MatchRow.mk 0 "A" "B" 2 1] : List EloM.MatchRow) ≠ [] ∧
      (EloM.build_elo 0 [EloM.MatchRow.mk 0 "A" "B" 2 1] 1500 20 400 365 60).draw_nu
        = 2 * 0.15 / 0.85 := by
  have h : ([EloM.MatchRow.mk 0 "A" "B" 2 1] : List EloM.MatchRow) ≠ [] := by simp
  refine ⟨h, (claim_C8 0 _ 1500 20 400 365 60 h).2 ?_⟩
  intro m hm
  simp only [List.mem_singleton] at hm
  subst hm
  decide

/-- Claim C4 as stated is refuted on a degenerate dataset pairing a team with
itself: in `A vs A, 1-0` both ratings are read before writing, and the
away-side write `ratings[a] = Ra - change` overwrites the home-side write, so
the table ends at `init - change` with `change ≠ 0` and the ratings sum is
not `init` times the number of distinct teams.  (Parameters chosen to make
`change = 1/2` exactly: `init = 0`, `k_base = 1`, `half_life = 0` so the time
weight is 1, `home_adv = 0` so the expected score is `1/2`.) -/
theorem claim_C4_counterexample :
    sumVal (EloM.build_elo 0 [EloM.MatchRow.mk 0 "A" "A" 1 0] 0 1 400 0 0).teams
      ≠ 0 * ((EloM.build_elo 0 [EloM.MatchRow.mk 0 "A" "A" 1 0]
          0 1 400 0 0).teams).length := by
  have hb : (EloM.build_elo 0 [EloM.MatchRow.mk 0 "A" "A" 1 0] 0 1 400 0 0).teams
      = [("A", 0 - 1 * EloM.half_life_weight (((0 - 0 : ℤ) : ℝ) / 86400) 0
          * EloM.goal_diff_factor (((1 : ℤ) - 0).natAbs)
              |0 + 0 - 0|
          * (1 - EloM.expected_Elo (0 + 0 - 0) 400))] := by
    simp [EloM.build_elo, EloM.step, List.insertionSort, List.orderedInsert,
      getD, upsert]
  rw [hb]
  have hw : EloM.half_life_weight (((0 - 0 : ℤ) : ℝ) / 86400) 0 = 1 := by
    rw [EloM.half_life_weight, if_pos le_rfl]
  have hg : EloM.goal_diff_factor (((1 : ℤ) - 0).natAbs) |(0 : ℝ) + 0 - 0| = 1 := by
    rw [EloM.goal_diff_factor, if_pos (by norm_num)]
    norm_num
  have he : EloM.expected_Elo ((0 : ℝ) + 0 - 0) 400 = 1 / 2 := by
    rw [EloM.expected_Elo, show (-((0 : ℝ) + 0 - 0) / 400) = 0 by norm_num, Real.rpow_zero]
    norm_num
  rw [hw, hg, he]
  simp [sumVal]
  norm_num

theorem orderedInsert_congr {α : Type} (r r' : α → α → Prop) [DecidableRel r]
    [DecidableRel r'] (a : α) :
    ∀ l : List α, (∀ y ∈ l, (r a y ↔ r' a y)) →
      l.orderedInsert r a = l.orderedInsert r' a := by
  intro l
  induction l with
  | nil => intro _; rfl
  | cons b t ih =>
    intro h
    by_cases hb : r a b
    · rw [List.orderedInsert, if_pos hb, List.orderedInsert,
        if_pos ((h b (List.mem_cons_self _ _)).1 hb)]
    · rw [List.orderedInsert, if_neg hb, List.orderedInsert,
        if_neg (fun hb2 => hb ((h b (List.mem_cons_self _ _)).2 hb2)),
        ih (fun y hy => h y (List.mem_cons_of_mem _ hy))]

namespace Pred

theorem scorelineItems_length (lam mu : ℚ) (cap : ℕ) :
    (scorelineItems lam mu cap).length = (cap + 1) * (cap + 1) := by
  rw [scorelineItems, List.length_flatMap]
  simp [Function.comp_def]

theorem scorelineItems_pairwise (lam mu : ℚ) (cap : ℕ) :
    (scorelineItems lam mu cap).Pairwise lexLt := by
  rw [scorelineItems, List.pairwise_flatMap]
  constructor
  · intro i _
    rw [List.pairwise_map]
    exact (List.pairwise_lt_range _).imp fun h => Or.inr ⟨rfl, h⟩
  · refine (List.pairwise_lt_range _).imp ?_
    intro i1 i2 h x hx y hy
    obtain ⟨j1, _, rfl⟩ := List.mem_map.1 hx
    obtain ⟨j2, _, rfl⟩ := List.mem_map.1 hy
    exact Or.inl h

theorem scorelineItems_key (lam mu : ℚ) (cap : ℕ) :
    ∀ s ∈ scorelineItems lam mu cap, s.key = keyQ lam mu s.home_goals s.away_goals := by
  intro s hs
  rw [scorelineItems] at hs
  obtain ⟨i, _, hmem⟩ := List.mem_flatMap.1 hs
  obtain ⟨j, _, rfl⟩ := List.mem_map.1 hmem
  rfl

theorem pois_prod_eq (lam mu : ℚ) (i j : ℕ) :
    pois i (lam : ℝ) * pois j (mu : ℝ)
      = Real.exp (-(max (lam : ℝ) 1e-9 + max (mu : ℝ) 1e-9))
          * ((keyQ lam mu i j : ℚ) : ℝ) := by
  have hmax1 : ((max lam 1e-9 : ℚ) : ℝ) = max (lam : ℝ) 1e-9 := by
    rw [Rat.cast_max]
    norm_num
  have hmax2 : ((max mu 1e-9 : ℚ) : ℝ) = max (mu : ℝ) 1e-9 := by
    rw [Rat.cast_max]
    norm_num
  rw [pois, pois, keyQ]
  push_cast
  rw [neg_add, Real.exp_add]
  have hfi : ((Nat.factorial i : ℝ)) ≠ 0 := by
    exact_mod_cast Nat.factorial_ne_zero i
  have hfj : ((Nat.factorial j : ℝ)) ≠ 0 := by
    exact_mod_cast Nat.factorial_ne_zero j
  field_simp
  ring

theorem prob_le_iff_key_le (lam mu : ℚ) (i j i2 j2 : ℕ) :
    pois i2 (lam : ℝ) * pois j2 (mu : ℝ) ≤ pois i (lam : ℝ) * pois j (mu : ℝ)
      ↔ keyQ lam mu i2 j2 ≤ keyQ lam mu i j := by
  rw [pois_prod_eq, pois_prod_eq, mul_le_mul_left (Real.exp_pos _), Rat.cast_le]

theorem keyGe_iff_keyLex {a y : Scoreline} (h : lexLt a y) : keyGe a y ↔ keyLex a y := by
  rw [keyGe, keyLex]
  constructor
  · intro hle
    rcases lt_or_eq_of_le hle with h1 | h1
    · exact Or.inl h1
    · refine Or.inr ⟨h1, ?_⟩
      rcases h with h2 | ⟨h2, h3⟩
      · exact Or.inl h2
      · exact Or.inr ⟨h2, h3.le⟩
  · rintro (h1 | ⟨h1, _⟩)
    · exact h1.le
    · exact le_of_eq h1

theorem insertionSort_keyGe_eq_keyLex :
    ∀ l : List Scoreline, l.Pairwise lexLt →
      l.insertionSort keyGe = l.insertionSort keyLex := by
  intro l
  induction l with
  | nil => intro _; rfl
  | cons a t ih =>
    intro h
    rw [List.pairwise_cons] at h
    rw [List.insertionSort, List.insertionSort, ih h.2]
    refine orderedInsert_congr keyGe keyLex a _ ?_
    intro y hy
    exact keyGe_iff_keyLex (h.1 y ((List.mem_insertionSort keyLex).1 hy))

end Pred

namespace ModelM

theorem gridItems_pairwise (M : List (List ℚ)) : (gridItems M).Pairwise cellLt := by
  rw [gridItems, List.pairwise_flatMap]
  constructor
  · intro i _
    rw [List.pairwise_map]
    exact (List.pairwise_lt_range _).imp fun h => Or.inr ⟨rfl, h⟩
  · refine (List.pairwise_lt_range _).imp ?_
    intro i1 i2 h x hx y hy
    obtain ⟨j1, _, rfl⟩ := List.mem_map.1 hx
    obtain ⟨j2, _, rfl⟩ := List.mem_map.1 hy
    exact Or.inl h

end ModelM

/-- Claim C5 (amended): both `top_scorelines` functions return exactly `k`
entries with pairwise-distinct `(home_goals, away_goals)` pairs, sorted by
descending probability — but the tie-breaks differ from the claim:
`predict.top_scorelines` (a stable sort over items generated in ascending
`(home, away)` order) breaks ties by ascending home goals then ascending away
goals, and `PoissonDC.top_scorelines` (a reverse tuple sort) breaks ties by
descending home goals then descending away goals.  Neither uses the claimed
(lower total goals, then lower home goals) rule: see the counterexample. -/
theorem claim_C5_amended :
    (∀ (lam mu : ℚ) (k cap : ℕ), 1 ≤ k → k ≤ (cap + 1) ^ 2 →
      (Pred.top_scorelines lam mu k cap).length = k ∧
      ((Pred.top_scorelines lam mu k cap).map
        (fun s => (s.home_goals, s.away_goals))).Nodup ∧
      (Pred.top_scorelines lam mu k cap).Pairwise (fun a b =>
        Pred.pois b.home_goals (lam : ℝ) * Pred.pois b.away_goals (mu : ℝ)
          ≤ Pred.pois a.home_goals (lam : ℝ) * Pred.pois a.away_goals (mu : ℝ)) ∧
      (Pred.top_scorelines lam mu k cap).Pairwise Pred.keyLex) ∧
    (∀ (M : List (List ℚ)) (k : ℕ), k ≤ (ModelM.gridItems M).length →
      (ModelM.top_scorelines M k).length = k ∧
      ((ModelM.top_scorelines M k).map
        (fun s => (s.home_goals, s.away_goals))).Nodup ∧
      (ModelM.top_scorelines M k).Pairwise ModelM.tupGe) := by
  constructor
  · intro lam mu k cap _ hk
    have hperm := List.perm_insertionSort Pred.keyGe (Pred.scorelineItems lam mu cap)
    have hpw := Pred.scorelineItems_pairwise lam mu cap
    refine ⟨?_, ?_, ?_, ?_⟩
    · rw [Pred.top_scorelines, List.length_take, hperm.length_eq,
        Pred.scorelineItems_length]
      refine Nat.min_eq_left (le_trans hk (le_of_eq ?_))
      rw [pow_two]
    · have hne : (Pred.scorelineItems lam mu cap).Pairwise
          (fun a b => (a.home_goals, a.away_goals) ≠ (b.home_goals, b.away_goals)) := by
        refine hpw.imp ?_
        intro a b h heq
        rw [Prod.mk.injEq] at heq
        rcases h with h | ⟨h1, h2⟩ <;> omega
      have hitems : ((Pred.scorelineItems lam mu cap).map
          (fun s => (s.home_goals, s.away_goals))).Nodup :=
        (List.pairwise_map).2 hne
      have hsortnd : (((Pred.scorelineItems lam mu cap).insertionSort Pred.keyGe).map
          (fun s => (s.home_goals, s.away_goals))).Nodup :=
        ((hperm.map _).nodup_iff).2 hitems
      rw [Pred.top_scorelines, List.map_take]
      exact hsortnd.sublist (List.take_sublist _ _)
    · have hsorted : (((Pred.scorelineItems lam mu cap).insertionSort
          Pred.keyGe)).Pairwise Pred.keyGe :=
        List.sorted_insertionSort Pred.keyGe _
      have htake : (Pred.top_scorelines lam mu k cap).Pairwise Pred.keyGe :=
        hsorted.sublist (List.take_sublist _ _)
      refine htake.imp_of_mem ?_
      intro a b ha hb hab
      have ha2 : a ∈ Pred.scorelineItems lam mu cap :=
        hperm.subset ((List.take_sublist _ _).subset ha)
      have hb2 : b ∈ Pred.scorelineItems lam mu cap :=
        hperm.subset ((List.take_sublist _ _).subset hb)
      have hka := Pred.scorelineItems_key lam mu cap a ha2
      have hkb := Pred.scorelineItems_key lam mu cap b hb2
      refine (Pred.prob_le_iff_key_le lam mu a.home_goals a.away_goals
        b.home_goals b.away_goals).2 ?_
      rw [← hka, ← hkb]
      exact hab
    · rw [Pred.top_scorelines, Pred.insertionSort_keyGe_eq_keyLex _ hpw]
      exact (List.sorted_insertionSort Pred.keyLex _).sublist (List.take_sublist _ _)
  · intro M k hk
    have hperm := List.perm_insertionSort ModelM.tupGe (ModelM.gridItems M)
    have hpw := ModelM.gridItems_pairwise M
    refine ⟨?_, ?_, ?_⟩
    · rw [ModelM.top_scorelines, List.length_take, hperm.length_eq]
      exact Nat.min_eq_left hk
    · have hne : (ModelM.gridItems M).Pairwise
          (fun a b => (a.home_goals, a.away_goals) ≠ (b.home_goals, b.away_goals)) := by
        refine hpw.imp ?_
        intro a b h heq
        rw [Prod.mk.injEq] at heq
        rcases h with h | ⟨h1, h2⟩ <;> omega
      have hitems : ((ModelM.gridItems M).map
          (fun s => (s.home_goals, s.away_goals))).Nodup :=
        (List.pairwise_map).2 hne
      have hsortnd : (((ModelM.gridItems M).insertionSort ModelM.tupGe).map
          (fun s => (s.home_goals, s.away_goals))).Nodup :=
        ((hperm.map _).nodup_iff).2 hitems
      rw [ModelM.top_scorelines, List.map_take]
      exact hsortnd.sublist (List.take_sublist _ _)
    · exact (List.sorted_insertionSort ModelM.tupGe _).sublist (List.take_sublist _ _)

/-- Witness for C5 at concrete inputs. -/
theorem claim_C5_witness :
    ((1 : ℕ) ≤ 3 ∧ (3 : ℕ) ≤ (2 + 1) ^ 2 ∧ (Pred.top_scorelines 1 1 3 2).length = 3) ∧
      ((1 : ℕ) ≤ (ModelM.gridItems [[1]]).length ∧
        (ModelM.top_scorelines [[1]] 1).length = 1) := by
  have h1 : (1 : ℕ) ≤ (ModelM.gridItems [[1]]).length := by
    norm_num [ModelM.gridItems, List.range_succ]
  exact ⟨⟨by norm_num, by norm_num,
      (claim_C5_amended.1 1 1 3 2 (by norm_num) (by norm_num)).1⟩,
    ⟨h1, (claim_C5_amended.2 [[1]] 1 h1).1⟩⟩

/-- Claim C5 as stated is refuted: over the valid probability grid
`[[1/2, 1/5], [1/5, 1/10]]` the tied cells come out `(1,0)` before `(0,1)`
(Python sorts the tuples `(prob, i, j)` in reverse), while the claimed
tie-break — lower total goals, then lower home goals — demands `(0,1)` before
`(1,0)`. -/
theorem claim_C5_counterexample :
    ModelM.top_scorelines [[1/2, 1/5], [1/5, 1/10]] 4
      = [⟨1/2, 0, 0⟩, ⟨1/5, 1, 0⟩, ⟨1/5, 0, 1⟩, ⟨1/10, 1, 1⟩] ∧
    ¬ (ModelM.top_scorelines [[1/2, 1/5], [1/5, 1/10]] 4).Pairwise
        ModelM.specClaimOrder := by
  have h : ModelM.top_scorelines [[1/2, 1/5], [1/5, 1/10]] 4
      = [⟨1/2, 0, 0⟩, ⟨1/5, 1, 0⟩, ⟨1/5, 0, 1⟩, ⟨1/10, 1, 1⟩] := by
    norm_num [ModelM.top_scorelines, ModelM.gridItems, List.insertionSort,
      List.orderedInsert, ModelM.tupGe, List.range_succ]
  refine ⟨h, ?_⟩
  rw [h]
  intro hp
  norm_num [List.pairwise_cons, ModelM.specClaimOrder] at hp

/-- Claim C7 (amended): on an empty match dataset `build_ratings` raises no
exception and returns the empty teams table with the neutral defaults
`league_avg_gpg = 1.35` (goals per team per game, i.e. 2.70 goals per match),
`home_adv = 1.10` (inside the documented 1.05–1.10 band) and
`draw_scale = 1.0`.  The spec's figure "league average goals per game ≈ 2.6"
does not match the stored per-team value 1.35: see the counterexample. -/
theorem claim_C7_amended {Row : Type} (f : List Row → RatM.Ratings) :
    (RatM.build_ratings ([] : List Row) f).teams = [] ∧
    (RatM.build_ratings ([] : List Row) f).league_avg_gpg = 1.35 ∧
    (RatM.build_ratings ([] : List Row) f).home_adv = 1.10 ∧
    (RatM.build_ratings ([] : List Row) f).draw_scale = 1.00 ∧
    1.05 ≤ (RatM.build_ratings ([] : List Row) f).home_adv ∧
    (RatM.build_ratings ([] : List Row) f).home_adv ≤ 1.10 := by
  refine ⟨?_, ?_, ?_, ?_, ?_, ?_⟩ <;> simp [RatM.build_ratings] <;> norm_num

/-- Claim C7 as stated is refuted: the stored empty-dataset default
`league_avg_gpg` is `1.35`, which is not approximately `2.6` (it is off by
`1.25`, even with a generous `±0.5` reading of "approximately"; `2.6` matches
the per-match figure `2 × 1.35 = 2.7`, not the stored per-team-per-game
field). -/
theorem claim_C7_counterexample :
    ¬ (|(RatM.build_ratings ([] : List Unit)
        (fun _ => ⟨0, 0, 0, []⟩)).league_avg_gpg - 2.6| ≤ 0.5) := by
  have h : (RatM.build_ratings ([] : List Unit)
      (fun _ => ⟨0, 0, 0, []⟩)).league_avg_gpg = 1.35 := by
    simp [RatM.build_ratings]
  rw [h]
  rw [abs_of_neg (by norm_num)]
  norm_num

/-- Claim C10 (confirmed): `build_ratings` stores the venue splits under the
keys `att_home`/`def_home`/`att_away`/`def_away`, while `_get_strengths`
looks up `att_h`/`def_h`/`att_a`/`def_a` and falls back to the overall
values, so on any team record produced by `build_ratings` the venue-split
fields of the returned `Strengths` equal the overall fields and the stored
splits are never read. -/
theorem claim_C10 (teams : List (String × List (String × ℝ))) (k : String)
    (att deff ah dh aa da g : ℝ)
    (h : getD teams k [] = RatM.mkTeamRecord att deff ah dh aa da g) :
    (Pred.get_strengths (some k) teams).att_h = (Pred.get_strengths (some k) teams).att ∧
    (Pred.get_strengths (some k) teams).deff_h = (Pred.get_strengths (some k) teams).deff ∧
    (Pred.get_strengths (some k) teams).att_a = (Pred.get_strengths (some k) teams).att ∧
    (Pred.get_strengths (some k) teams).deff_a = (Pred.get_strengths (some k) teams).deff ∧
    (Pred.get_strengths (some k) teams).att = att ∧
    (Pred.get_strengths (some k) teams).deff = deff := by
  simp +decide [Pred.get_strengths, h, RatM.mkTeamRecord, getD]

/-- Witness for C10 on a concrete one-team table. -/
theorem claim_C10_witness :
    getD [("arsenal", RatM.mkTeamRecord 1.2 0.9 1.3 0.8 1.1 1.0 10)] "arsenal" []
        = RatM.mkTeamRecord 1.2 0.9 1.3 0.8 1.1 1.0 10 ∧
      (Pred.get_strengths (some "arsenal")
          [("arsenal", RatM.mkTeamRecord 1.2 0.9 1.3 0.8 1.1 1.0 10)]).att_h
        = (Pred.get_strengths (some "arsenal")
          [("arsenal", RatM.mkTeamRecord 1.2 0.9 1.3 0.8 1.1 1.0 10)]).att := by
  have h : getD [("arsenal", RatM.mkTeamRecord 1.2 0.9 1.3 0.8 1.1 1.0 10)] "arsenal" []
      = RatM.mkTeamRecord 1.2 0.9 1.3 0.8 1.1 1.0 10 := by
    simp [getD]
  exact ⟨h, (claim_C10 _ "arsenal" 1.2 0.9 1.3 0.8 1.1 1.0 10 h).1⟩

theorem lookupA_upsert_self {A : Type} (l : List (String × A)) (k : String) (v : A) :
    lookupA (upsert l k v) k = some v := by
  induction l with
  | nil => simp [upsert, lookupA]
  | cons hd t ih =>
    obtain ⟨k1, v1⟩ := hd
    by_cases h : k1 = k
    · simp [upsert, lookupA, h]
    · simp [upsert, lookupA, h, ih]

theorem lookupA_upsert_ne {A : Type} (l : List (String × A)) {k k2 : String} (v : A)
    (h : k2 ≠ k) : lookupA (upsert l k v) k2 = lookupA l k2 := by
  induction l with
  | nil => simp [upsert, lookupA, Ne.symm h]
  | cons hd t ih =>
    obtain ⟨k1, v1⟩ := hd
    by_cases h1 : k1 = k
    · subst h1
      simp [upsert, lookupA, Ne.symm h]
    · simp only [upsert, if_neg h1, lookupA]
      by_cases h2 : k1 = k2
      · simp [h2]
      · simp [h2, ih]

namespace Pred

theorem lookupA_foldl_upsert (canon : String → String) :
    ∀ (l : List String) (idx : List (String × String)) (c k : String),
      lookupA (l.foldl (fun idx k => upsert idx (canon k) k) idx) c = some k →
        (canon k = c ∧ k ∈ l) ∨ lookupA idx c = some k := by
  intro l
  induction l with
  | nil => intro idx c k h; exact Or.inr h
  | cons a t ih =>
    intro idx c k h
    rw [List.foldl_cons] at h
    rcases ih _ c k h with h2 | h2
    · exact Or.inl ⟨h2.1, List.mem_cons_of_mem _ h2.2⟩
    · by_cases hc : c = canon a
      · subst hc
        rw [lookupA_upsert_self] at h2
        obtain rfl : a = k := by injection h2
        exact Or.inl ⟨rfl, List.mem_cons_self _ _⟩
      · rw [lookupA_upsert_ne _ _ hc] at h2
        exact Or.inr h2

theorem build_canon_index_sound (canon : String → String) (teams : List String)
    (c k : String) (h : lookupA (build_canon_index canon teams) c = some k) :
    canon k = c ∧ k ∈ teams := by
  rcases lookupA_foldl_upsert canon teams [] c k h with h2 | h2
  · exact h2
  · simp [lookupA] at h2

theorem specBest_ge_neg_one (sc : String → ℕ) :
    ∀ l : List (String × String), -1 ≤ (specBest sc l).2 := by
  intro l
  induction l with
  | nil => simp [specBest]
  | cons p t ih =>
    simp only [specBest]
    split
    · exact ih
    · dsimp only
      omega

theorem specBest_ge (sc : String → ℕ) :
    ∀ (l : List (String × String)), ∀ p ∈ l, (sc p.1 : ℤ) ≤ (specBest sc l).2 := by
  intro l
  induction l with
  | nil => intro p hp; simp at hp
  | cons q t ih =>
    intro p hp
    rcases List.mem_cons.1 hp with rfl | hp2
    · simp only [specBest]
      split
      · rename_i hlt
        exact le_of_lt hlt
      · simp
    · simp only [specBest]
      split
      · exact ih p hp2
      · rename_i hlt
        push_neg at hlt
        exact le_trans (ih p hp2) (by simpa using hlt)

theorem specBest_le (sc : String → ℕ) (B : ℤ) (hB : -1 ≤ B) :
    ∀ l : List (String × String), (∀ q ∈ l, (sc q.1 : ℤ) ≤ B) →
      (specBest sc l).2 ≤ B := by
  intro l
  induction l with
  | nil => intro _; simpa [specBest] using hB
  | cons p t ih =>
    intro h
    simp only [specBest]
    split
    · exact ih fun q hq => h q (List.mem_cons_of_mem _ hq)
    · simpa using h p (List.mem_cons_self _ _)

theorem specBest_first (sc : String → ℕ) :
    ∀ (l1 : List (String × String)) (p : String × String) (l2 : List (String × String)),
      (∀ q ∈ l1, sc q.1 < sc p.1) → (∀ q ∈ l2, sc q.1 ≤ sc p.1) →
        specBest sc (l1 ++ p :: l2) = (some p.2, (sc p.1 : ℤ)) := by
  intro l1
  induction l1 with
  | nil =>
    intro p l2 _ h2
    simp only [List.nil_append, specBest]
    rw [if_neg]
    push_neg
    exact specBest_le sc _ (by omega) l2 (fun q hq => by exact_mod_cast h2 q hq)
  | cons a t ih =>
    intro p l2 h1 h2
    rw [List.cons_append]
    simp only [specBest]
    rw [ih p l2 (fun q hq => h1 q (List.mem_cons_of_mem _ hq)) h2]
    dsimp only
    rw [if_pos (by exact_mod_cast h1 a (List.mem_cons_self _ _))]

theorem foldl_best_eq (sc : String → ℕ) :
    ∀ (l : List (String × String)) (st : Option String × ℤ), -1 ≤ st.2 →
      l.foldl (fun st p => if st.2 < (sc p.1 : ℤ)
          then (some p.2, (sc p.1 : ℤ)) else st) st
        = if st.2 < (specBest sc l).2 then specBest sc l else st := by
  intro l
  induction l with
  | nil =>
    intro st hst
    rw [List.foldl_nil, specBest]
    rw [if_neg (by omega)]
  | cons p t ih =>
    intro st hst
    rw [List.foldl_cons]
    by_cases hab : st.2 < (sc p.1 : ℤ)
    · rw [if_pos hab, ih (some p.2, (sc p.1 : ℤ)) (by dsimp only; omega)]
      simp only [specBest]
      by_cases hbc : (sc p.1 : ℤ) < (specBest sc t).2
      · rw [if_pos hbc, if_pos (lt_trans hab hbc)]
      · rw [if_neg hbc, if_pos hab]
    · rw [if_neg hab, ih st hst]
      simp only [specBest]
      by_cases hbc : (sc p.1 : ℤ) < (specBest sc t).2
      · rw [if_pos hbc]
      · rw [if_neg hbc, if_neg (show ¬ st.2 < (specBest sc t).2 from by omega),
          if_neg hab]

end Pred

/-- Claim C9 (amended): `resolve_team_key` is a total function (never
raises) behaving as follows.  On an empty table it returns
`(None, "no-teams-in-ratings")`, not `(None, "unmatched")` as claimed — see
the counterexample.  On a canonical-index hit it returns that table key with
method `"direct"`, and the hit's canonical form equals the canonicalised
query.  Otherwise the loop computes the first-seen maximiser of the
token-set overlap (`Pred.specBest`; every index entry scores no higher), and
returns it with method `"token-match"` when the best overlap is positive,
else `(None, "unmatched")`.  A failed resolution (`None` key) makes
`_get_strengths` substitute the all-1.0 neutral `Strengths`. -/
theorem claim_C9_amended :
    (∀ (canon : String → String) (name : String),
      Pred.resolve_team_key canon name [] = (none, "no-teams-in-ratings")) ∧
    (∀ (canon : String → String) (name : String) (teams : List String) (k : String),
      lookupA (Pred.build_canon_index canon teams) (canon name) = some k →
        Pred.resolve_team_key canon name teams = (some k, "direct") ∧
          canon k = canon name ∧ k ∈ teams) ∧
    (∀ (canon : String → String) (name : String) (teams : List String),
      teams ≠ [] →
      lookupA (Pred.build_canon_index canon teams) (canon name) = none →
      (∀ p ∈ Pred.build_canon_index canon teams,
        (Pred.score (Pred.tokens (canon name)) p.1 : ℤ)
          ≤ (Pred.specBest (Pred.score (Pred.tokens (canon name)))
              (Pred.build_canon_index canon teams)).2) ∧
      (0 < (Pred.specBest (Pred.score (Pred.tokens (canon name)))
          (Pred.build_canon_index canon teams)).2 →
        Pred.resolve_team_key canon name teams
          = ((Pred.specBest (Pred.score (Pred.tokens (canon name)))
              (Pred.build_canon_index canon teams)).1, "token-match")) ∧
      ((Pred.specBest (Pred.score (Pred.tokens (canon name)))
          (Pred.build_canon_index canon teams)).2 ≤ 0 →
        Pred.resolve_team_key canon name teams = (none, "unmatched"))) ∧
    (∀ teams : List (String × List (String × ℝ)),
      Pred.get_strengths none teams = {}) := by
  refine ⟨?_, ?_, ?_, ?_⟩
  · intro canon name
    rfl
  · intro canon name teams k h
    have hne : teams ≠ [] := by
      rintro rfl
      simp [Pred.build_canon_index, lookupA] at h
    refine ⟨?_, Pred.build_canon_index_sound canon teams _ k h⟩
    simp only [Pred.resolve_team_key]
    rw [if_neg (by simpa using hne)]
    simp only [h]
  · intro canon name teams hne hnone
    refine ⟨fun p hp => Pred.specBest_ge _ _ p hp, ?_, ?_⟩
    · intro hb
      simp only [Pred.resolve_team_key]
      rw [if_neg (by simpa using hne)]
      simp only [hnone]
      rw [Pred.foldl_best_eq (Pred.score (Pred.tokens (canon name)))
        (Pred.build_canon_index canon teams) ((none : Option String), (-1 : ℤ))
        (by norm_num)]
      rw [if_pos (show (-1 : ℤ) < (Pred.specBest (Pred.score (Pred.tokens (canon name)))
        (Pred.build_canon_index canon teams)).2 from by omega)]
      rw [if_pos hb]
    · intro hb
      simp only [Pred.resolve_team_key]
      rw [if_neg (by simpa using hne)]
      simp only [hnone]
      rw [Pred.foldl_best_eq (Pred.score (Pred.tokens (canon name)))
        (Pred.build_canon_index canon teams) ((none : Option String), (-1 : ℤ))
        (by norm_num)]
      by_cases h2 : (-1 : ℤ) < (Pred.specBest (Pred.score (Pred.tokens (canon name)))
          (Pred.build_canon_index canon teams)).2
      · rw [if_pos h2, if_neg (by omega)]
      · rw [if_neg h2, if_neg (show ¬ (0 : ℤ) < -1 from by norm_num)]
  · intro teams
    rfl

/-- Witness for C9: a direct hit on a one-team table. -/
theorem claim_C9_witness :
    lookupA (Pred.build_canon_index (fun s => s) ["Arsenal"]) ((fun s => s) "Arsenal")
        = some "Arsenal" ∧
      Pred.resolve_team_key (fun s => s) "Arsenal" ["Arsenal"]
        = (some "Arsenal", "direct") := by
  have h : lookupA (Pred.build_canon_index (fun s => s) ["Arsenal"])
      ((fun s => s) "Arsenal") = some "Arsenal" := by
    simp [Pred.build_canon_index, upsert, lookupA]
  exact ⟨h, (claim_C9_amended.2.1 (fun s => s) "Arsenal" ["Arsenal"] "Arsenal" h).1⟩

/-- Claim C9 as stated is refuted on an empty ratings table: the method
string is `"no-teams-in-ratings"`, not `"unmatched"`. -/
theorem claim_C9_counterexample :
    Pred.resolve_team_key (fun s => s) "arsenal" [] = (none, "no-teams-in-ratings") ∧
      ("no-teams-in-ratings" : String) ≠ "unmatched" := by
  exact ⟨rfl, by decide⟩
